import Mathlib

/-!
# Goldfish Edge Actors — verification of the Router / Actor core

A shallow embedding of the Goldfish actor runtime (Cloudflare Workers +
Durable Objects).  The embedding covers:

* `src/router.js` — `GoldfishRouter`: `handleRoute`, `handleStatus`,
  the `/admin-reset` handler, `drainLoop`, `processActorQueue`,
  `persistActorState`;
* `src/index.js` — the worker front door's `/invoke` validation;
* `src/actor.js` — `GoldfishActor`: `ensureInitialized` and the
  `/invoke` memory load/persist lifecycle;
* a small-step interleaving model of the drain machinery, used to prove
  per-key mutual exclusion and FIFO delivery.

JS `Map`s are modelled as insertion-ordered association lists, durable
storage as an association list of key/value pairs, payloads and results
as their JSON text (`Option String`, `none` for an absent/falsy payload),
and timestamps as naturals.
-/

namespace Goldfish

/-! ## Association-list helpers (JS `Map` semantics) -/

/-- `Map.get k`: first binding of `k`, if any. -/
def getEntry {α : Type} (k : String) : List (String × α) → Option α
  | [] => none
  | (k', v) :: rest => if k' = k then some v else getEntry k rest

/-- `Map.set k v`: overwrite in place (keeping insertion order), append if absent. -/
def setEntry {α : Type} (k : String) (v : α) : List (String × α) → List (String × α)
  | [] => [(k, v)]
  | (k', v') :: rest => if k' = k then (k, v) :: rest else (k', v') :: setEntry k v rest

/-- `Map.delete` for every key matching a predicate (used for storage prefix deletes). -/
def dropEntries {α : Type} (p : String → Bool) (l : List (String × α)) :
    List (String × α) :=
  l.filter (fun kv => !(p kv.1))

/-- JS `String.prototype.startsWith`, modelled on the character data
(kernel-computable, unlike `String.startsWith`). -/
def strStartsWith (s pre : String) : Bool := pre.data.isPrefixOf s.data

theorem getEntry_cons {α : Type} (k : String) (kv : String × α) (l : List (String × α)) :
    getEntry k (kv :: l) = if kv.1 = k then some kv.2 else getEntry k l := by
  cases kv
  rfl

theorem getEntry_setEntry_self {α : Type} (k : String) (v : α) :
    ∀ l : List (String × α), getEntry k (setEntry k v l) = some v := by
  intro l
  induction l with
  | nil => simp [getEntry, setEntry]
  | cons kv rest ih =>
    by_cases h : kv.1 = k
    · simp [setEntry, h, getEntry]
    · simp [setEntry, h, getEntry, ih]

theorem getEntry_setEntry_ne {α : Type} (k k' : String) (v : α) (hne : k' ≠ k) :
    ∀ l : List (String × α), getEntry k (setEntry k' v l) = getEntry k l := by
  intro l
  induction l with
  | nil => simp [getEntry, setEntry, hne]
  | cons kv rest ih =>
    by_cases h : kv.1 = k'
    · simp [setEntry, h, getEntry, hne]
    · simp only [setEntry, h, if_neg h, getEntry]
      by_cases h2 : kv.1 = k
      · simp [h2]
      · simp [h2, ih]

theorem mem_setEntry {α : Type} (k : String) (v : α) :
    ∀ (l : List (String × α)) (kv : String × α), kv ∈ setEntry k v l →
      kv = (k, v) ∨ kv ∈ l := by
  intro l
  induction l with
  | nil => intro kv h; simp [setEntry] at h; left; exact h
  | cons hd rest ih =>
    intro kv h
    by_cases hh : hd.1 = k
    · simp only [setEntry, if_pos hh] at h
      rcases List.mem_cons.1 h with h | h
      · left; exact h
      · right; exact List.mem_cons_of_mem _ h
    · simp only [setEntry, if_neg hh] at h
      rcases List.mem_cons.1 h with h | h
      · right; exact h ▸ List.mem_cons_self _ _
      · rcases ih kv h with h' | h'
        · left; exact h'
        · right; exact List.mem_cons_of_mem _ h'

theorem getEntry_mem {α : Type} (k : String) :
    ∀ (l : List (String × α)) (v : α), getEntry k l = some v → (k, v) ∈ l := by
  intro l
  induction l with
  | nil => intro v h; simp [getEntry] at h
  | cons hd rest ih =>
    intro v h
    by_cases hh : hd.1 = k
    · simp only [getEntry, if_pos hh] at h
      have : hd = (k, v) := by
        cases hd
        simp only [Option.some.injEq] at h
        simp_all
      exact this ▸ List.mem_cons_self _ _
    · simp only [getEntry, if_neg hh] at h
      exact List.mem_cons_of_mem _ (ih v h)

/-! ## Data model (`src/router.js`) -/

/-- Per-actor-key policy (fields of the object built in `handleRoute`). -/
structure Policy where
  queueLimit : Nat
  timeoutMs : Nat
  maxPayloadBytes : Nat
deriving Repr, DecidableEq

/-- The fixed default policy copied into every fresh `ActorQueueState`
(`queueLimit: 100, timeoutMs: 30_000, maxPayloadBytes: 64 * 1024`). -/
def defaultPolicy : Policy :=
  { queueLimit := 100, timeoutMs := 30000, maxPayloadBytes := 64 * 1024 }

/-- A queued message `{ messageId, payload, enqueuedAt }`.  The payload is its
JSON text (`none` when the route body carried no/falsy payload). -/
structure Message where
  messageId : String
  payload : Option String
  enqueuedAt : Nat
deriving Repr, DecidableEq

/-- The per-key scheduling state kept in the Router's in-memory `actors` map. -/
structure ActorQueueState where
  actorKey : String
  actorType : String
  actorId : String
  busy : Bool
  queue : List Message
  policy : Policy
deriving Repr, DecidableEq

/-- Handler continuation directive (`nextPolicy.mode` is a plain string in JS;
unrecognized modes fall through to the `immediate` branch). -/
structure NextPolicy where
  mode : String
deriving Repr, DecidableEq

/-- Normalized handler envelope, after `handleRoute`'s destructuring defaults
`nextPolicy = { mode: "immediate" }`, `spawn = []` have been applied. -/
structure Envelope where
  result : Option String
  nextPolicy : NextPolicy
  spawn : List String
deriving Repr, DecidableEq

/-- Outcome of the addressed `actorStub.fetch(".../invoke")` call:
a non-2xx transport failure (`!resp.ok`) or a parsed envelope. -/
inductive InvokeResp where
  | failure (status : Nat)
  | success (env : Envelope)
deriving Repr, DecidableEq

/-- Durable metadata snapshot written by `persistActorState`. -/
structure Meta where
  busy : Bool
  queueLength : Nat
  actorType : String
  actorId : String
  updatedAt : Nat
deriving Repr, DecidableEq

/-- Router Durable Object state: the in-memory `actors` map, the
`pendingResults` correlation table (we record just the set of messageIds that
still have a waiting caller), and the durable storage holding `meta:*` keys. -/
structure RouterState where
  actors : List (String × ActorQueueState)
  pendingResults : List String
  storage : List (String × Meta)
deriving Repr, DecidableEq

/-- A freshly activated Router has empty volatile state. -/
def initRouter : RouterState := { actors := [], pendingResults := [], storage := [] }

/-! ## `GoldfishRouter.handleRoute` -/

/-- `payload ? JSON.stringify(payload).length : 0`. -/
def payloadSize : Option String → Nat
  | none => 0
  | some s => s.length

/-- The fresh idle `ActorQueueState` inserted on first route for a key. -/
def freshActorState (actorType actorId : String) : ActorQueueState :=
  { actorKey := actorType ++ ":" ++ actorId
    actorType := actorType
    actorId := actorId
    busy := false
    queue := []
    policy := defaultPolicy }

/-- Caller-visible outcome of `handleRoute`'s admission phase:
413 `Payload too large`, 429 `Queue is full`, or accepted (message enqueued,
`PendingRequest` registered, caller now awaiting resolution). -/
inductive RouteOutcome where
  | payloadTooLarge
  | queueFull
  | accepted (messageId : String)
deriving Repr, DecidableEq

/-- `GoldfishRouter.handleRoute` up to the point where the caller starts
awaiting the `Promise.race`.  `mid` stands for the generated
`crypto.randomUUID()` and `now` for `Date.now()`. -/
def handleRoute (actorType actorId : String) (payload : Option String)
    (mid : String) (now : Nat) (s : RouterState) : RouterState × RouteOutcome :=
  let actorKey := actorType ++ ":" ++ actorId
  -- `let actorState = this.actors.get(actorKey); if (!actorState) { ...; this.actors.set(...) }`
  let pair :=
    match getEntry actorKey s.actors with
    | some a => (a, s.actors)
    | none =>
      let a := freshActorState actorType actorId
      (a, setEntry actorKey a s.actors)
  let actorState := pair.1
  let s := { s with actors := pair.2 }
  if actorState.policy.maxPayloadBytes < payloadSize payload then
    (s, RouteOutcome.payloadTooLarge)
  else if actorState.policy.queueLimit ≤ actorState.queue.length then
    (s, RouteOutcome.queueFull)
  else
    let message : Message := { messageId := mid, payload := payload, enqueuedAt := now }
    let actorState := { actorState with queue := actorState.queue ++ [message] }
    ({ s with
        actors := setEntry actorKey actorState s.actors
        pendingResults := s.pendingResults ++ [mid] },
      RouteOutcome.accepted mid)

/-- The `setTimeout` body in `handleRoute`: after `timeoutMs`, the
`PendingRequest` entry is deleted and the caller's race is rejected with
`Error("Processing timeout")` (surfaced as a 504).  The queues are untouched. -/
def routeTimeout (mid : String) (s : RouterState) : RouterState × String :=
  ({ s with pendingResults := s.pendingResults.erase mid }, "Processing timeout")

/-! ## Worker front door (`src/index.js`, `POST /invoke`) -/

/-- Parsed `/invoke` body; each field may be absent. -/
structure InvokeBody where
  actorType : Option String
  actorId : Option String
  payload : Option String
deriving Repr, DecidableEq

/-- JS truthiness for the string fields checked by `if (!actorType || !actorId)`:
`undefined` and `""` are falsy. -/
def truthy : Option String → Bool
  | none => false
  | some s => s ≠ ""

/-- Worker-level response for `POST /invoke`. -/
inductive WorkerResp where
  | invalidJson
  | missingFields
  | routed (o : RouteOutcome)
deriving Repr, DecidableEq

/-- `worker.fetch` on `POST /invoke`: parse the JSON body, validate
`actorType`/`actorId` presence (400 before the Router is ever contacted),
then forward to the Router's `handleRoute`. -/
def workerInvoke (body : Option InvokeBody) (mid : String) (now : Nat)
    (s : RouterState) : RouterState × WorkerResp :=
  match body with
  | none => (s, WorkerResp.invalidJson)
  | some b =>
    if !truthy b.actorType || !truthy b.actorId then
      (s, WorkerResp.missingFields)
    else
      let (s', o) := handleRoute (b.actorType.getD "") (b.actorId.getD "") b.payload mid now s
      (s', WorkerResp.routed o)

/-! ## `GoldfishRouter.processActorQueue` and friends

The drain logic is transcribed as a pure function over `RouterState`.  The
addressed call to the actor activation is abstracted as an oracle
`invoke : Message → InvokeResp` chosen by the environment.  Alongside the new
state we collect a trace of observable events: invocation starts, caller
resolutions and caller rejections. -/

/-- Observable events emitted while draining (and by `/admin-reset`). -/
inductive DrainEvent where
  | invoked (actorKey messageId : String)
  | resolved (messageId : String) (result : Option String)
  | rejectedPending (messageId : String) (error : String)
  | actorReset (actorKey : String)
deriving Repr, DecidableEq

/-- The `for (const childId of spawn)` loop: pre-register an idle
`ActorQueueState` under `` `${actorState.actorType}:${childId}` `` for every
spawned child id that has no entry yet; the policy is copied from the parent.
No message is sent. -/
def registerSpawn (parent : ActorQueueState) :
    List String → List (String × ActorQueueState) → List (String × ActorQueueState)
  | [], actors => actors
  | childId :: rest, actors =>
    let childKey := parent.actorType ++ ":" ++ childId
    let actors' :=
      match getEntry childKey actors with
      | some _ => actors
      | none =>
        setEntry childKey
          { actorKey := childKey
            actorType := parent.actorType
            actorId := childId
            busy := false
            queue := []
            policy := parent.policy } actors
    registerSpawn parent rest actors'

/-- The recurring pattern `const pending = this.pendingResults.get(id);
if (pending) { pending.resolve/reject(...); this.pendingResults.delete(id); }`:
if a `PendingRequest` for `mid` exists, deliver `ev` to it and drop the entry;
otherwise do nothing (a missing entry is silently skipped). -/
def settlePending (mid : String) (ev : DrainEvent) (pending : List String)
    (log : List DrainEvent) : List String × List DrainEvent :=
  if mid ∈ pending then (pending.erase mid, log ++ [ev]) else (pending, log)

/-- The `reject` continuation branch: `while (queue.length > 0)` shift each
remaining message and reject its `PendingRequest` (when one is registered)
with `Error("Message rejected by actor")`. -/
def rejectRemaining : List Message → List String → List DrainEvent →
    List String × List DrainEvent
  | [], pending, log => (pending, log)
  | m :: rest, pending, log =>
    let pl := settlePending m.messageId
      (DrainEvent.rejectedPending m.messageId "Message rejected by actor") pending log
    rejectRemaining rest pl.1 pl.2

/-- The `while (actorState.queue.length > 0)` body of `processActorQueue`:
invoke the head message, then on transport failure reject its pending entry,
shift, and break; on success register spawn hints, resolve the pending entry,
shift, and apply `nextPolicy.mode` (`wait` breaks, `reject` drains the rest,
anything else continues).  Returns the remaining queue, the updated actors
map, the updated pending table and the event log. -/
def processQueueLoop (invoke : Message → InvokeResp) (a0 : ActorQueueState) :
    List Message → List (String × ActorQueueState) → List String → List DrainEvent →
      List Message × List (String × ActorQueueState) × List String × List DrainEvent
  | [], actors, pending, log => ([], actors, pending, log)
  | m :: rest, actors, pending, log =>
    let log1 := log ++ [DrainEvent.invoked a0.actorKey m.messageId]
    match invoke m with
    | InvokeResp.failure status =>
      let pl := settlePending m.messageId
        (DrainEvent.rejectedPending m.messageId
          ("Actor DO error: " ++ toString status)) pending log1
      (rest, actors, pl.1, pl.2)
    | InvokeResp.success env =>
      let actors1 := registerSpawn a0 env.spawn actors
      let pl := settlePending m.messageId
        (DrainEvent.resolved m.messageId env.result) pending log1
      if env.nextPolicy.mode = "wait" then
        (rest, actors1, pl.1, pl.2)
      else if env.nextPolicy.mode = "reject" then
        let pl2 := rejectRemaining rest pl.1 pl.2
        ([], actors1, pl2.1, pl2.2)
      else
        processQueueLoop invoke a0 rest actors1 pl.1 pl.2

/-- `GoldfishRouter.persistActorState`: write the metadata snapshot under
`` `meta:${actorKey}` ``.  Note it reads `actorState.busy` *as it currently
is* — at its only call site the flag is still `true`. -/
def persistActorState (now : Nat) (a : ActorQueueState)
    (storage : List (String × Meta)) : List (String × Meta) :=
  setEntry ("meta:" ++ a.actorKey)
    { busy := a.busy
      queueLength := a.queue.length
      actorType := a.actorType
      actorId := a.actorId
      updatedAt := now } storage

/-- `GoldfishRouter.processActorQueue`: return immediately if the key is
busy (or unknown), otherwise set `busy`, run the queue loop, persist the
metadata snapshot (with `busy` still set), and finally clear `busy`. -/
def processActorQueue (invoke : Message → InvokeResp) (now : Nat)
    (actorKey : String) (s : RouterState) : RouterState × List DrainEvent :=
  match getEntry actorKey s.actors with
  | none => (s, [])
  | some a =>
    if a.busy then (s, [])
    else
      let aBusy := { a with busy := true }
      let actors0 := setEntry actorKey aBusy s.actors
      let r := processQueueLoop invoke aBusy a.queue actors0 s.pendingResults []
      -- `await this.persistActorState(actorState)` runs inside the `try`,
      -- so it still sees `busy = true` and the queue as it now stands.
      let aDone := { aBusy with queue := r.1 }
      let storage1 := persistActorState now aDone s.storage
      -- `finally { actorState.busy = false; }`
      let aFinal := { aDone with busy := false }
      ({ actors := setEntry actorKey aFinal r.2.1
         pendingResults := r.2.2.1
         storage := storage1 }, r.2.2.2)

/-- `GoldfishRouter.drainLoop`: visit every known key once, skipping busy
keys and empty queues, processing each eligible key to completion or pause
before moving on. -/
def drainLoopGo (invoke : Message → InvokeResp) (now : Nat) :
    List String → RouterState → List DrainEvent → RouterState × List DrainEvent
  | [], s, log => (s, log)
  | k :: rest, s, log =>
    match getEntry k s.actors with
    | none => drainLoopGo invoke now rest s log
    | some a =>
      if a.busy then drainLoopGo invoke now rest s log
      else if a.queue.isEmpty then drainLoopGo invoke now rest s log
      else
        let (s', log') := processActorQueue invoke now k s
        drainLoopGo invoke now rest s' (log ++ log')

/-- One drain cycle over the keys currently known to the Router. -/
def drainLoop (invoke : Message → InvokeResp) (now : Nat) (s : RouterState) :
    RouterState × List DrainEvent :=
  drainLoopGo invoke now (s.actors.map Prod.fst) s []

/-! ## `GoldfishRouter.handleStatus` -/

/-- One element of the `/status` snapshot. -/
structure StatusEntry where
  actorKey : String
  actorType : String
  actorId : String
  busy : Bool
  queueLength : Nat
  policy : Option Policy
  metaUpdatedAt : Option Nat
  fromStorage : Bool
  fromMemory : Bool
deriving Repr, DecidableEq

/-- Step 2 of `handleStatus`: seed the status map from the stored `meta:*`
entries matching the prefix (`policy` is `null` there). -/
def statusFromStorage (actorTypePrefix : String) (storage : List (String × Meta)) :
    List (String × StatusEntry) :=
  (storage.filter (fun kv => strStartsWith kv.1 ("meta:" ++ actorTypePrefix))).map
    (fun kv =>
      let actorKey := kv.1.drop 5
      (actorKey,
        { actorKey := actorKey
          actorType := kv.2.actorType
          actorId := kv.2.actorId
          busy := kv.2.busy
          queueLength := kv.2.queueLength
          policy := none
          metaUpdatedAt := some kv.2.updatedAt
          fromStorage := true
          fromMemory := false }))

/-- Step 3 of `handleStatus`: overlay one live `ActorQueueState` (memory wins
on `busy`/`queueLength`/`policy`); keys outside a non-empty prefix are
skipped. -/
def statusMergeOne (actorTypePrefix : String) (acc : List (String × StatusEntry))
    (a : ActorQueueState) : List (String × StatusEntry) :=
  if actorTypePrefix ≠ "" && !(strStartsWith a.actorKey actorTypePrefix) then acc
  else
    match getEntry a.actorKey acc with
    | some e =>
      setEntry a.actorKey
        { e with
            busy := a.busy
            queueLength := a.queue.length
            policy := some a.policy
            fromMemory := true } acc
    | none =>
      setEntry a.actorKey
        { actorKey := a.actorKey
          actorType := a.actorType
          actorId := a.actorId
          busy := a.busy
          queueLength := a.queue.length
          policy := some a.policy
          metaUpdatedAt := none
          fromStorage := false
          fromMemory := true } acc

/-- `GoldfishRouter.handleStatus`: durable metadata first, then the live
in-memory states merged on top; returns the merged snapshot values. -/
def handleStatus (actorTypePrefix : String) (s : RouterState) : List StatusEntry :=
  ((s.actors.map Prod.snd).foldl (statusMergeOne actorTypePrefix)
      (statusFromStorage actorTypePrefix s.storage)).map Prod.snd

/-! ## `GoldfishRouter` `/admin-reset` -/

/-- The `/admin-reset` branch of `GoldfishRouter.fetch`: list every stored
`meta:*` entry under `"meta:" + (actorTypePrefix || "")`, ask the matching
actor activation to reset (logged as an `actorReset` event), delete the
metadata entry, and answer `{ ok: true, cleared: [...all.keys()] }`.
Note `cleared` holds the raw storage keys, `meta:` prefix included. -/
def adminReset (actorTypePrefix : Option String) (s : RouterState) :
    RouterState × List String × List DrainEvent :=
  let pfx := "meta:" ++ actorTypePrefix.getD ""
  let all := s.storage.filter (fun kv => strStartsWith kv.1 pfx)
  let log := all.map (fun kv => DrainEvent.actorReset (kv.1.drop 5))
  ({ s with storage := dropEntries (fun k => strStartsWith k pfx) s.storage },
    all.map Prod.fst, log)

/-! ## Router operation wrapper (for reachability invariants)

Every mutation of a live `RouterState` goes through one of these entry
points; `runOps` replays a sequence of them from a freshly activated Router.
The `invoke` oracle models the actor activations' responses. -/

/-- One externally triggered Router operation. -/
inductive RouterOp where
  | route (actorType actorId : String) (payload : Option String) (mid : String) (now : Nat)
  | timeout (mid : String)
  | process (actorKey : String) (now : Nat)
  | drain (now : Nat)
  | adminResetOp (actorTypePrefix : Option String)
deriving Repr

/-- Apply one operation (responses supplied by the `invoke` oracle). -/
def applyOp (invoke : Message → InvokeResp) (s : RouterState) : RouterOp → RouterState
  | RouterOp.route t i p mid now => (handleRoute t i p mid now s).1
  | RouterOp.timeout mid => (routeTimeout mid s).1
  | RouterOp.process k now => (processActorQueue invoke now k s).1
  | RouterOp.drain now => (drainLoop invoke now s).1
  | RouterOp.adminResetOp pfx => (adminReset pfx s).1

/-- Replay a sequence of operations from the initial Router state. -/
def runOps (invoke : Message → InvokeResp) (ops : List RouterOp) : RouterState :=
  ops.foldl (applyOp invoke) initRouter

/-- Router states reachable through the public entry points. -/
def ReachableRouter (invoke : Message → InvokeResp) (s : RouterState) : Prop :=
  ∃ ops : List RouterOp, runOps invoke ops = s

/-! ## `GoldfishActor` (`src/actor.js`): activation memory lifecycle

Actor memory is an opaque JSON object; we model it as an association list of
string fields.  The business handler (`this.handleMessage`) is a parameter:
it consumes the payload, the current time and the memory and returns the
mutated memory together with the envelope. -/

/-- Actor memory: a JSON-serializable object. -/
def Mem : Type := List (String × String)

instance : DecidableEq Mem := by unfold Mem; infer_instance

/-- One `GoldfishActor` activation together with its durable storage.
`reads` instruments the number of `storage.get("memory")` calls performed
by this activation (it is not part of the JS state). -/
structure ActorDO where
  memory : Option Mem
  initialized : Bool
  storageMem : Option Mem
  reads : Nat
deriving DecidableEq

/-- A freshly constructed activation over existing durable storage
(`this.memory = null; this.initialized = false`). -/
def newActivation (stored : Option Mem) : ActorDO :=
  { memory := none, initialized := false, storageMem := stored, reads := 0 }

/-- Evict the in-memory cache: the platform constructs a new activation over
the same durable storage. -/
def discardActivation (a : ActorDO) : ActorDO := newActivation a.storageMem

/-- `GoldfishActor.ensureInitialized`: load memory from storage at most once
(`stored || {}`), then mark the activation initialized. -/
def ensureInitialized (a : ActorDO) : ActorDO :=
  if a.initialized then a
  else
    { a with
        memory := some (a.storageMem.getD [])
        initialized := true
        reads := a.reads + 1 }

/-- The `/invoke` branch of `GoldfishActor.fetch`: ensure memory is loaded,
run the handler against it, then persist the full memory object
(`storage.put("memory", this.memory)`) and return the envelope. -/
def invokeActor (handle : Option String → Nat → Mem → Mem × Envelope)
    (payload : Option String) (now : Nat) (a : ActorDO) : ActorDO × Envelope :=
  let a := ensureInitialized a
  let r := handle payload now (a.memory.getD [])
  ({ a with memory := some r.1, storageMem := some r.1 }, r.2)

/-- The `/admin-reset` branch of `GoldfishActor.fetch`: delete the durable
memory record, clear the cache and mark the activation uninitialized. -/
def adminResetActor (a : ActorDO) : ActorDO :=
  { a with memory := some [], initialized := false, storageMem := none }

/-- Replay a sequence of `/invoke` calls (payload, now) on one activation. -/
def runInvokes (handle : Option String → Nat → Mem → Mem × Envelope)
    (ops : List (Option String × Nat)) (a : ActorDO) : ActorDO :=
  ops.foldl (fun a op => (invokeActor handle op.1 op.2 a).1) a

/-! ## Small-step interleaving model of the drain machinery

`processActorQueue` runs concurrently with `handleRoute` (and with further
`drainLoop`/`triggerDraining` entries) in the Durable Object's cooperative
event loop: control can change hands at every `await`.  To prove the ordering
and mutual-exclusion claim we model each entry into `processActorQueue` as a
thread whose program counter tracks its position between suspension points:

* `running`   — at the `while` loop head (between invocations);
* `awaiting m`— the addressed `invoke` call for head message `m` is in
  flight (`await actorStub.fetch(...)`);
* `persisting`— the loop has exited; `persistActorState` is awaited and the
  `finally` block has not yet cleared `busy`;
* `done`      — the call has returned.

The check `if (actorState.busy) return; actorState.busy = true;` contains no
`await`, so it is a single atomic step (`enter`).  Likewise the message-
processing code between the response's arrival and the next loop iteration
only appends/shifts the queue and is taken as one step (`respond`); enqueues
commute with it since `handleRoute` only appends to the tail.  Scheduling is
adversarial: any thread may be stepped at any time, and `enter` may be
attempted at any time (this over-approximates what `drainLoop` and
`triggerDraining` actually do, which can only help the adversary).

Messages are represented by their `messageId`; per key we additionally keep
three ghost logs: `enqLog` (ids accepted by `route`, in order), `remLog`
(ids shifted off the queue, in order) and `invLog` (ids handed to the actor's
`invoke`, in order of invocation start). -/

/-- Thread program counter for one `processActorQueue` call. -/
inductive Phase where
  | running
  | awaiting (mid : String)
  | persisting
  | done
deriving Repr, DecidableEq

/-- One in-flight `processActorQueue` call. -/
structure DrainThread where
  key : String
  phase : Phase
deriving Repr, DecidableEq

/-- Per-key scheduling state plus ghost logs. -/
structure KeySt where
  busy : Bool
  queue : List String
  enqLog : List String
  remLog : List String
  invLog : List String
deriving Repr, DecidableEq

/-- Fresh key state (also what a lazily created `ActorQueueState` adds). -/
def KeySt.init : KeySt :=
  { busy := false, queue := [], enqLog := [], remLog := [], invLog := [] }

/-- The interleaving system: all key states and all drain threads. -/
structure Sys where
  keys : String → KeySt
  threads : List DrainThread

/-- Update one key's state. -/
def Sys.setKey (s : Sys) (k : String) (v : KeySt) : Sys :=
  { s with keys := fun k' => if k' = k then v else s.keys k' }

/-- Response of the in-flight invoke, as far as queue handling goes. -/
inductive LoopResp where
  | failure
  | okImmediate
  | okWait
  | okReject
deriving Repr, DecidableEq

/-- Scheduler/adversary choices. -/
inductive SysAct where
  | route (k mid : String)
  | enter (k : String)
  | readHead (i : Nat)
  | respond (i : Nat) (r : LoopResp)
  | finish (i : Nat)
deriving Repr, DecidableEq

/-- `handleRoute`'s accepted enqueue (admission guard: length below the
default `queueLimit`); rejected submissions leave the state unchanged. -/
def stepRoute (s : Sys) (k mid : String) : Sys :=
  let ks := s.keys k
  if ks.queue.length < defaultPolicy.queueLimit then
    s.setKey k { ks with queue := ks.queue ++ [mid], enqLog := ks.enqLog ++ [mid] }
  else s

/-- Entering `processActorQueue` (from `drainLoop` or a re-trigger):
`if (actorState.busy) return;` else set `busy` and start the loop. -/
def stepEnter (s : Sys) (k : String) : Sys :=
  let ks := s.keys k
  if ks.busy then s
  else
    let s := s.setKey k { ks with busy := true }
    { s with threads := s.threads ++ [{ key := k, phase := Phase.running }] }

/-- The loop head: with an empty queue fall through to persistence, else read
`queue[0]` and fire the addressed `invoke` call for it. -/
def stepReadHead (s : Sys) (i : Nat) : Sys :=
  match s.threads[i]? with
  | some t =>
    match t.phase with
    | Phase.running =>
      let ks := s.keys t.key
      match ks.queue with
      | [] => { s with threads := s.threads.set i { t with phase := Phase.persisting } }
      | m :: _ =>
        let s := s.setKey t.key { ks with invLog := ks.invLog ++ [m] }
        { s with threads := s.threads.set i { t with phase := Phase.awaiting m } }
    | _ => s
  | none => s

/-- The invoke response arrives and is processed: shift the head and either
continue (`immediate`), break (`wait` / transport failure) or drain the rest
and break (`reject`). -/
def stepRespond (s : Sys) (i : Nat) (r : LoopResp) : Sys :=
  match s.threads[i]? with
  | some t =>
    match t.phase with
    | Phase.awaiting _ =>
      let ks := s.keys t.key
      match ks.queue with
      | [] => s
      | h :: rest =>
        match r with
        | LoopResp.failure =>
          let s := s.setKey t.key { ks with queue := rest, remLog := ks.remLog ++ [h] }
          { s with threads := s.threads.set i { t with phase := Phase.persisting } }
        | LoopResp.okImmediate =>
          let s := s.setKey t.key { ks with queue := rest, remLog := ks.remLog ++ [h] }
          { s with threads := s.threads.set i { t with phase := Phase.running } }
        | LoopResp.okWait =>
          let s := s.setKey t.key { ks with queue := rest, remLog := ks.remLog ++ [h] }
          { s with threads := s.threads.set i { t with phase := Phase.persisting } }
        | LoopResp.okReject =>
          let s := s.setKey t.key
            { ks with queue := [], remLog := ks.remLog ++ h :: rest }
          { s with threads := s.threads.set i { t with phase := Phase.persisting } }
    | _ => s
  | none => s

/-- Persistence finishes and the `finally` block clears `busy`. -/
def stepFinish (s : Sys) (i : Nat) : Sys :=
  match s.threads[i]? with
  | some t =>
    match t.phase with
    | Phase.persisting =>
      let ks := s.keys t.key
      let s := s.setKey t.key { ks with busy := false }
      { s with threads := s.threads.set i { t with phase := Phase.done } }
    | _ => s
  | none => s

/-- One scheduler step. -/
def stepSys (s : Sys) : SysAct → Sys
  | SysAct.route k mid => stepRoute s k mid
  | SysAct.enter k => stepEnter s k
  | SysAct.readHead i => stepReadHead s i
  | SysAct.respond i r => stepRespond s i r
  | SysAct.finish i => stepFinish s i

/-- Replay a schedule. -/
def runSys (s : Sys) (acts : List SysAct) : Sys := acts.foldl stepSys s

/-- The freshly activated Router: no keys, no threads. -/
def initSys : Sys := { keys := fun _ => KeySt.init, threads := [] }

/-- States reachable under an arbitrary schedule. -/
def ReachableSys (s : Sys) : Prop := ∃ acts : List SysAct, runSys initSys acts = s

/-- The message id an in-flight invocation of thread `t` for key `k` carries. -/
def awaitMsg (k : String) (t : DrainThread) : Option String :=
  if t.key = k then
    match t.phase with
    | Phase.awaiting m => some m
    | _ => none
  else none

/-- Does thread `t` hold key `k` (it passed the busy check and has not yet
released the flag)? -/
def isHolder (k : String) (t : DrainThread) : Bool :=
  t.key == k && t.phase != Phase.done

/-- Is thread `t` an in-flight invocation for key `k`? -/
def isInflight (k : String) (t : DrainThread) : Bool :=
  (awaitMsg k t).isSome

theorem Sys.setKey_keys (s : Sys) (k : String) (v : KeySt) (k' : String) :
    (s.setKey k v).keys k' = if k' = k then v else s.keys k' := rfl

theorem Sys.setKey_threads (s : Sys) (k : String) (v : KeySt) :
    (s.setKey k v).threads = s.threads := rfl

theorem Sys.setKey_keys_self (s : Sys) (k : String) (v : KeySt) :
    (s.setKey k v).keys k = v := by
  simp [Sys.setKey_keys]

theorem Sys.setKey_keys_ne (s : Sys) (k : String) (v : KeySt) (k' : String)
    (h : k' ≠ k) : (s.setKey k v).keys k' = s.keys k' := by
  simp [Sys.setKey_keys, h]

theorem isHolder_of_isInflight (k : String) (t : DrainThread)
    (h : isInflight k t = true) : isHolder k t = true := by
  unfold isInflight awaitMsg at h
  unfold isHolder
  by_cases hk : t.key = k
  · simp only [hk, if_pos rfl] at h
    cases hp : t.phase <;> simp [hp] at h ⊢ <;> simp [hk]
  · simp [hk] at h

theorem countP_inflight_le_holder (k : String) (l : List DrainThread) :
    l.countP (isInflight k) ≤ l.countP (isHolder k) :=
  List.countP_mono_left (fun t _ h => isHolder_of_isInflight k t h)

/-- The inductive invariant of the interleaving model, per key:

1. at most one thread holds the key;
2. when `busy` is clear no thread holds the key (`busy` is set before the
   first call and released last);
3. the queue is exactly the not-yet-removed suffix of the enqueue log;
4. an in-flight invocation is always for the current queue head, and the
   invocation log is a sublist of the removal log followed by that head;
5. with no invocation in flight, the invocation log is a sublist of the
   removal log. -/
def KeyInv (s : Sys) (k : String) : Prop :=
  s.threads.countP (isHolder k) ≤ 1
  ∧ ((s.keys k).busy = false → s.threads.countP (isHolder k) = 0)
  ∧ (s.keys k).enqLog = (s.keys k).remLog ++ (s.keys k).queue
  ∧ (∀ (i : Nat) (t : DrainThread) (m : String),
      s.threads[i]? = some t → awaitMsg k t = some m →
      (s.keys k).queue.head? = some m ∧
      ∃ pre, (s.keys k).invLog = pre ++ [m] ∧ pre.Sublist (s.keys k).remLog)
  ∧ (s.threads.countP (isInflight k) = 0 →
      (s.keys k).invLog.Sublist (s.keys k).remLog)

def SysInv (s : Sys) : Prop := ∀ k, KeyInv s k

theorem sysInv_init : SysInv initSys := by
  intro k
  unfold KeyInv initSys KeySt.init
  refine ⟨by simp, by simp, by simp, ?_, by simp⟩
  intro i t m hti
  simp at hti

theorem inv_stepRoute (s : Sys) (k mid : String) (h : SysInv s) :
    SysInv (stepRoute s k mid) := by
  intro k'
  obtain ⟨h1, h2, h3, h4, h5⟩ := h k'
  unfold stepRoute
  by_cases hlen : (s.keys k).queue.length < defaultPolicy.queueLimit
  · simp only [if_pos hlen]
    by_cases hk : k' = k
    · subst hk
      refine ⟨by simpa [Sys.setKey_threads] using h1,
        fun hb => ?_, ?_, ?_, fun hno => ?_⟩
      · rw [Sys.setKey_keys_self] at hb
        exact h2 hb
      · rw [Sys.setKey_keys_self]
        rw [h3, List.append_assoc]
      · intro i t m hti hm
        simp only [Sys.setKey_threads] at hti
        obtain ⟨hhead, pre, hinv, hsub⟩ := h4 i t m hti hm
        rw [Sys.setKey_keys_self]
        refine ⟨?_, pre, hinv, hsub⟩
        rw [List.head?_append, hhead]
        rfl
      · simp only [Sys.setKey_threads] at hno
        rw [Sys.setKey_keys_self]
        exact h5 hno
    · refine ⟨by simpa [Sys.setKey_threads] using h1, fun hb => ?_, ?_, ?_, fun hno => ?_⟩
      · rw [Sys.setKey_keys_ne _ _ _ _ hk] at hb
        simpa [Sys.setKey_threads] using h2 hb
      · rw [Sys.setKey_keys_ne _ _ _ _ hk]
        exact h3
      · intro i t m hti hm
        simp only [Sys.setKey_threads] at hti
        rw [Sys.setKey_keys_ne _ _ _ _ hk]
        exact h4 i t m hti hm
      · simp only [Sys.setKey_threads] at hno
        rw [Sys.setKey_keys_ne _ _ _ _ hk]
        exact h5 hno
  · simp only [if_neg hlen]
    exact ⟨h1, h2, h3, h4, h5⟩

theorem getElem?_append_one {α : Type} :
    ∀ (l : List α) (x : α) (i : Nat) (t : α),
      (l ++ [x])[i]? = some t → l[i]? = some t ∨ t = x := by
  intro l
  induction l with
  | nil =>
    intro x i t h
    cases i with
    | zero => right; simp at h; exact h.symm
    | succ n => simp at h
  | cons hd tl ih =>
    intro x i t h
    cases i with
    | zero => left; simpa using h
    | succ n =>
      simp only [List.cons_append, List.getElem?_cons_succ] at h ⊢
      exact ih x n t h

theorem one_le_countP_of_getElem {α : Type} (p : α → Bool) (l : List α)
    (i : Nat) (a : α) (ha : l[i]? = some a) (hpa : p a = true) :
    1 ≤ l.countP p :=
  List.countP_pos_iff.2 ⟨a, List.getElem?_mem ha, hpa⟩

theorem two_le_countP_of_getElem {α : Type} (p : α → Bool) :
    ∀ (l : List α) (i j : Nat) (a b : α), i ≠ j →
      l[i]? = some a → l[j]? = some b → p a = true → p b = true →
      2 ≤ l.countP p := by
  intro l
  induction l with
  | nil => intro i j a b hij ha hb hpa hpb; simp at ha
  | cons hd tl ih =>
    intro i j a b hij ha hb hpa hpb
    rw [List.countP_cons]
    cases i with
    | zero =>
      cases j with
      | zero => exact absurd rfl hij
      | succ n =>
        simp only [List.getElem?_cons_zero, Option.some.injEq] at ha
        simp only [List.getElem?_cons_succ] at hb
        have h1 := one_le_countP_of_getElem p tl n b hb hpb
        subst ha
        simp only [hpa, if_true]
        omega
    | succ n =>
      cases j with
      | zero =>
        simp only [List.getElem?_cons_zero, Option.some.injEq] at hb
        simp only [List.getElem?_cons_succ] at ha
        have h1 := one_le_countP_of_getElem p tl n a ha hpa
        subst hb
        simp only [hpb, if_true]
        omega
      | succ n' =>
        simp only [List.getElem?_cons_succ] at ha hb
        have h2 := ih n n' a b (fun hc => hij (by omega)) ha hb hpa hpb
        omega

/-- A `running` holder for `k` excludes any in-flight invocation for `k`:
from uniqueness of holders. -/
theorem no_inflight_of_holder_not_awaiting (s : Sys) (k : String) (i : Nat)
    (t : DrainThread) (hti : s.threads[i]? = some t) (hkey : t.key = k)
    (hph : ∀ m, t.phase ≠ Phase.awaiting m) (hnd : t.phase ≠ Phase.done)
    (h1 : s.threads.countP (isHolder k) ≤ 1) :
    s.threads.countP (isInflight k) = 0 := by
  by_contra hne
  have hpos : 1 ≤ s.threads.countP (isInflight k) := Nat.one_le_iff_ne_zero.2 hne
  obtain ⟨u, hu, hpu⟩ := List.countP_pos_iff.1 (Nat.lt_of_lt_of_le Nat.zero_lt_one hpos)
  obtain ⟨j, hj, hju⟩ := List.mem_iff_getElem.1 hu
  have hju' : s.threads[j]? = some u := by
    rw [List.getElem?_eq_some]
    exact ⟨hj, hju⟩
  have hne' : i ≠ j := by
    intro hij
    subst hij
    rw [hti] at hju'
    have hut : t = u := by injection hju'
    subst hut
    unfold isInflight awaitMsg at hpu
    simp only [hkey, if_pos rfl] at hpu
    rcases hp : t.phase with _ | m | _ | _
    · simp at hpu
    · exact hph m hp
    · simp at hpu
    · simp at hpu
  have hht : isHolder k t = true := by
    unfold isHolder
    simp [hkey, hnd]
  have h2 := two_le_countP_of_getElem (isHolder k) s.threads i j t u hne' hti hju'
    hht (isHolder_of_isInflight k u hpu)
  omega

theorem inv_stepEnter (s : Sys) (k : String) (h : SysInv s) :
    SysInv (stepEnter s k) := by
  intro k'
  obtain ⟨h1, h2, h3, h4, h5⟩ := h k'
  unfold stepEnter
  by_cases hb : (s.keys k).busy
  · simp only [if_pos hb]
    exact ⟨h1, h2, h3, h4, h5⟩
  · have hbf : (s.keys k).busy = false := by simpa using hb
    rw [if_neg hb]
    set tnew : DrainThread := { key := k, phase := Phase.running } with htnew
    by_cases hk : k' = k
    · subst hk
      have hcount : s.threads.countP (isHolder k') = 0 := h2 hbf
      refine ⟨?_, ?_, ?_, ?_, ?_⟩
      · simp only [Sys.setKey_threads, List.countP_append, hcount]
        simp [isHolder, htnew]
      · intro hb'
        rw [Sys.setKey_keys_self] at hb'
        simp at hb'
      · rw [Sys.setKey_keys_self]
        exact h3
      · intro i t m hti hm
        rw [Sys.setKey_keys_self]
        rcases getElem?_append_one _ _ _ _ hti with hold | hnew
        · exact h4 i t m hold hm
        · subst hnew
          unfold awaitMsg at hm
          simp [htnew] at hm
      · intro hno
        rw [Sys.setKey_keys_self]
        simp only [Sys.setKey_threads, List.countP_append] at hno
        exact h5 (by omega)
    · refine ⟨?_, ?_, ?_, ?_, ?_⟩
      · simp only [Sys.setKey_threads, List.countP_append]
        have : isHolder k' tnew = false := by
          unfold isHolder
          simp [htnew, Ne.symm hk]
        simp [this]
        omega
      · intro hb'
        rw [Sys.setKey_keys_ne _ _ _ _ hk] at hb'
        have hz := h2 hb'
        simp only [Sys.setKey_threads, List.countP_append, hz]
        have : isHolder k' tnew = false := by
          unfold isHolder
          simp [htnew, Ne.symm hk]
        simp [this]
      · rw [Sys.setKey_keys_ne _ _ _ _ hk]
        exact h3
      · intro i t m hti hm
        rw [Sys.setKey_keys_ne _ _ _ _ hk]
        rcases getElem?_append_one _ _ _ _ hti with hold | hnew
        · exact h4 i t m hold hm
        · subst hnew
          unfold awaitMsg at hm
          simp [htnew, Ne.symm hk] at hm
      · intro hno
        rw [Sys.setKey_keys_ne _ _ _ _ hk]
        simp only [Sys.setKey_threads, List.countP_append] at hno
        exact h5 (by omega)

theorem phase_running_ne_done : (Phase.running != Phase.done) = true := by decide

theorem phase_persisting_ne_done : (Phase.persisting != Phase.done) = true := by decide

theorem phase_awaiting_ne_done (m : String) :
    (Phase.awaiting m != Phase.done) = true := by
  simp [bne_iff_ne]

theorem countP_set_same {α : Type} (p : α → Bool) :
    ∀ (l : List α) (i : Nat) (a b : α), l[i]? = some a → p b = p a →
      (l.set i b).countP p = l.countP p := by
  intro l
  induction l with
  | nil => intro i a b h hpp; simp at h
  | cons hd tl ih =>
    intro i a b h hpp
    cases i with
    | zero =>
      simp only [List.getElem?_cons_zero, Option.some.injEq] at h
      subst h
      simp [List.set_cons_zero, List.countP_cons, hpp]
    | succ n =>
      simp only [List.getElem?_cons_succ] at h
      simp [List.set_cons_succ, List.countP_cons, ih n a b h hpp]

theorem countP_set_drop {α : Type} (p : α → Bool) :
    ∀ (l : List α) (i : Nat) (a b : α), l[i]? = some a → p a = true → p b = false →
      l.countP p = (l.set i b).countP p + 1 := by
  intro l
  induction l with
  | nil => intro i a b h hpa hpb; simp at h
  | cons hd tl ih =>
    intro i a b h hpa hpb
    cases i with
    | zero =>
      simp only [List.getElem?_cons_zero, Option.some.injEq] at h
      subst h
      simp [List.set_cons_zero, List.countP_cons, hpa, hpb]
    | succ n =>
      simp only [List.getElem?_cons_succ] at h
      simp only [List.set_cons_succ, List.countP_cons]
      rw [ih n a b h hpa hpb]
      omega

theorem inv_stepReadHead (s : Sys) (i : Nat) (h : SysInv s) :
    SysInv (stepReadHead s i) := by
  unfold stepReadHead
  cases hti : s.threads[i]? with
  | none => simp only [hti]; exact h
  | some t =>
    simp only [hti]
    cases hph : t.phase with
    | awaiting m => exact h
    | persisting => exact h
    | done => exact h
    | running =>
      have hlen : i < s.threads.length := (List.getElem?_eq_some.1 hti).1
      cases hq : (s.keys t.key).queue with
      | nil =>
        -- empty queue: the thread falls through to the persistence phase
        intro k'
        obtain ⟨h1, h2, h3, h4, h5⟩ := h k'
        set t' : DrainThread := { t with phase := Phase.persisting } with ht'
        have hsame : isHolder k' t' = isHolder k' t := by
          unfold isHolder
          simp [ht', hph, phase_persisting_ne_done, phase_running_ne_done]
        have hinf : isInflight k' t' = isInflight k' t := by
          unfold isInflight awaitMsg
          by_cases hk : t.key = k' <;> simp [ht', hph, hk]
        refine ⟨?_, fun hb => ?_, h3, ?_, fun hno => ?_⟩
        · simpa [countP_set_same _ _ _ _ _ hti hsame] using h1
        · simpa [countP_set_same _ _ _ _ _ hti hsame] using h2 hb
        · intro j u m hju hm
          by_cases hij : i = j
          · subst hij
            rw [List.getElem?_set_self hlen] at hju
            have : t' = u := by injection hju
            subst this
            unfold awaitMsg at hm
            by_cases hk : t'.key = k' <;> simp [ht', hk] at hm
          · rw [List.getElem?_set_ne hij] at hju
            exact h4 j u m hju hm
        · rw [countP_set_same _ _ _ _ _ hti hinf] at hno
          exact h5 hno
      | cons m rest =>
        -- non-empty queue: invoke the head message
        intro k'
        obtain ⟨h1, h2, h3, h4, h5⟩ := h k'
        set t'' : DrainThread := { t with phase := Phase.awaiting m } with ht''
        have hsame : isHolder k' t'' = isHolder k' t := by
          unfold isHolder
          simp [ht'', hph, phase_awaiting_ne_done, phase_running_ne_done]
        have hth : isHolder t.key t = true := by
          unfold isHolder
          simp [hph]
        by_cases hk : k' = t.key
        · subst hk
          -- the touched key
          have hnoinf : s.threads.countP (isInflight t.key) = 0 :=
            no_inflight_of_holder_not_awaiting s t.key i t hti rfl
              (by intro m' hc; rw [hph] at hc; cases hc)
              (by rw [hph]; intro hc; cases hc) h1
          have hsub : (s.keys t.key).invLog.Sublist (s.keys t.key).remLog := h5 hnoinf
          refine ⟨?_, fun hb => ?_, ?_, ?_, fun hno => ?_⟩
          · simpa [Sys.setKey_threads, countP_set_same _ _ _ _ _ hti hsame] using h1
          · exfalso
            rw [Sys.setKey_keys_self] at hb
            have hz := h2 (by simpa using hb)
            have ho := one_le_countP_of_getElem (isHolder t.key) s.threads i t hti hth
            omega
          · rw [Sys.setKey_keys_self]
            simpa [hq] using h3
          · intro j u m' hju hm'
            by_cases hij : i = j
            · subst hij
              simp only [Sys.setKey_threads] at hju
              rw [List.getElem?_set_self (by simpa using hlen)] at hju
              have : t'' = u := by injection hju
              subst this
              simp [awaitMsg, ht''] at hm'
              subst hm'
              rw [Sys.setKey_keys_self]
              refine ⟨rfl, (s.keys t.key).invLog, rfl, hsub⟩
            · simp only [Sys.setKey_threads] at hju
              rw [List.getElem?_set_ne hij] at hju
              exfalso
              have hu : isInflight t.key u = true := by
                unfold isInflight
                rw [hm']
                rfl
              have h2c := two_le_countP_of_getElem (isHolder t.key) s.threads i j t u
                hij hti hju hth (isHolder_of_isInflight _ _ hu)
              omega
          · exfalso
            simp only [Sys.setKey_threads] at hno
            rw [← ht''] at hno
            have : isInflight t.key t'' = true := by
              unfold isInflight awaitMsg
              simp [ht'']
            have ho := one_le_countP_of_getElem (isInflight t.key)
              (s.threads.set i t'') i t''
              (List.getElem?_set_self (by simpa using hlen)) this
            omega
        · -- untouched keys
          have hkk : t.key ≠ k' := fun hc => hk hc.symm
          have hinf : isInflight k' t'' = isInflight k' t := by
            unfold isInflight awaitMsg
            simp [ht'', hkk, hph]
          refine ⟨?_, fun hb => ?_, ?_, ?_, fun hno => ?_⟩
          · simpa [Sys.setKey_threads, countP_set_same _ _ _ _ _ hti hsame] using h1
          · rw [Sys.setKey_keys_ne _ _ _ _ hk] at hb
            simpa [Sys.setKey_threads, countP_set_same _ _ _ _ _ hti hsame] using h2 hb
          · rw [Sys.setKey_keys_ne _ _ _ _ hk]
            exact h3
          · intro j u m' hju hm'
            rw [Sys.setKey_keys_ne _ _ _ _ hk]
            by_cases hij : i = j
            · subst hij
              simp only [Sys.setKey_threads] at hju
              rw [List.getElem?_set_self (by simpa using hlen)] at hju
              have : t'' = u := by injection hju
              subst this
              unfold awaitMsg at hm'
              simp [ht'', hkk] at hm'
            · simp only [Sys.setKey_threads] at hju
              rw [List.getElem?_set_ne hij] at hju
              exact h4 j u m' hju hm'
          · rw [Sys.setKey_keys_ne _ _ _ _ hk]
            simp only [Sys.setKey_threads] at hno
            rw [countP_set_same _ _ _ _ _ hti hinf] at hno
            exact h5 hno

/-- `awaitMsg` of the thread's own key, for an awaiting thread. -/
theorem awaitMsg_self (t : DrainThread) (m : String) (hph : t.phase = Phase.awaiting m) :
    awaitMsg t.key t = some m := by
  unfold awaitMsg
  simp [hph]

/-- Invariant preservation for the respond branches that shift the head and
set the thread's next phase (`failure`, `okImmediate`, `okWait`). -/
theorem inv_respond_shift (s : Sys) (i : Nat) (t : DrainThread) (m0 hd : String)
    (rest : List String) (ph2 : Phase)
    (hti : s.threads[i]? = some t) (hph : t.phase = Phase.awaiting m0)
    (hq : (s.keys t.key).queue = hd :: rest) (hinv : SysInv s)
    (hph2 : ph2 = Phase.running ∨ ph2 = Phase.persisting) :
    SysInv { s.setKey t.key
        { s.keys t.key with
            queue := rest, remLog := (s.keys t.key).remLog ++ [hd] } with
      threads := s.threads.set i { t with phase := ph2 } } := by
  obtain ⟨hhead, pre, hinvlog, hsubp⟩ :=
    (hinv t.key).2.2.2.1 i t m0 hti (awaitMsg_self t m0 hph)
  have hm : hd = m0 := by
    rw [hq] at hhead
    simpa using hhead
  subst hm
  set t2 : DrainThread := { t with phase := ph2 } with ht2
  have hth : isHolder t.key t = true := by
    unfold isHolder
    simp [hph, phase_awaiting_ne_done]
  have hsame : ∀ q, isHolder q t2 = isHolder q t := by
    intro q
    unfold isHolder
    rcases hph2 with h' | h' <;>
      simp [ht2, h', hph, phase_awaiting_ne_done, phase_running_ne_done,
        phase_persisting_ne_done]
  have hlen : i < s.threads.length := (List.getElem?_eq_some.1 hti).1
  intro k'
  obtain ⟨h1, h2, h3, h4, h5⟩ := hinv k'
  by_cases hk : k' = t.key
  · subst hk
    refine ⟨?_, fun hb => ?_, ?_, ?_, fun _ => ?_⟩
    · simpa [Sys.setKey_threads, countP_set_same _ _ _ _ _ hti (hsame _)] using h1
    · exfalso
      rw [Sys.setKey_keys_self] at hb
      have hb2 : (s.keys t.key).busy = false := hb
      have hz := h2 hb2
      have ho := one_le_countP_of_getElem _ s.threads i t hti hth
      omega
    · rw [Sys.setKey_keys_self]
      show (s.keys t.key).enqLog = ((s.keys t.key).remLog ++ [hd]) ++ rest
      rw [h3, hq, List.append_assoc]
      rfl
    · intro j u m' hju hm'
      by_cases hij : i = j
      · subst hij
        simp only [Sys.setKey_threads] at hju
        rw [List.getElem?_set_self hlen] at hju
        have : t2 = u := by injection hju
        subst this
        unfold awaitMsg at hm'
        rcases hph2 with h' | h' <;> simp [ht2, h'] at hm'
      · simp only [Sys.setKey_threads] at hju
        rw [List.getElem?_set_ne hij] at hju
        exfalso
        have hu : isInflight t.key u = true := by
          unfold isInflight
          rw [hm']
          rfl
        have h2c := two_le_countP_of_getElem (isHolder t.key) s.threads i j t u
          hij hti hju hth (isHolder_of_isInflight _ _ hu)
        omega
    · rw [Sys.setKey_keys_self]
      show (s.keys t.key).invLog.Sublist ((s.keys t.key).remLog ++ [hd])
      rw [hinvlog]
      exact List.Sublist.append hsubp (List.Sublist.refl [hd])
  · have hkk : t.key ≠ k' := fun hc => hk hc.symm
    have hinfq : isInflight k' t2 = isInflight k' t := by
      unfold isInflight awaitMsg
      simp [ht2, hkk]
    refine ⟨?_, fun hb => ?_, ?_, ?_, fun hno => ?_⟩
    · simpa [Sys.setKey_threads, countP_set_same _ _ _ _ _ hti (hsame _)] using h1
    · rw [Sys.setKey_keys_ne _ _ _ _ hk] at hb
      simpa [Sys.setKey_threads, countP_set_same _ _ _ _ _ hti (hsame _)] using h2 hb
    · rw [Sys.setKey_keys_ne _ _ _ _ hk]
      exact h3
    · intro j u m' hju hm'
      rw [Sys.setKey_keys_ne _ _ _ _ hk]
      by_cases hij : i = j
      · subst hij
        simp only [Sys.setKey_threads] at hju
        rw [List.getElem?_set_self hlen] at hju
        have : t2 = u := by injection hju
        subst this
        unfold awaitMsg at hm'
        simp [ht2, hkk] at hm'
      · simp only [Sys.setKey_threads] at hju
        rw [List.getElem?_set_ne hij] at hju
        exact h4 j u m' hju hm'
    · rw [Sys.setKey_keys_ne _ _ _ _ hk]
      simp only [Sys.setKey_threads] at hno
      rw [countP_set_same _ _ _ _ _ hti hinfq] at hno
      exact h5 hno

/-- Invariant preservation for the `okReject` respond branch: the whole
remaining queue is drained. -/
theorem inv_respond_reject (s : Sys) (i : Nat) (t : DrainThread) (m0 hd : String)
    (rest : List String)
    (hti : s.threads[i]? = some t) (hph : t.phase = Phase.awaiting m0)
    (hq : (s.keys t.key).queue = hd :: rest) (hinv : SysInv s) :
    SysInv { s.setKey t.key
        { s.keys t.key with
            queue := [], remLog := (s.keys t.key).remLog ++ hd :: rest } with
      threads := s.threads.set i { t with phase := Phase.persisting } } := by
  obtain ⟨hhead, pre, hinvlog, hsubp⟩ :=
    (hinv t.key).2.2.2.1 i t m0 hti (awaitMsg_self t m0 hph)
  have hm : hd = m0 := by
    rw [hq] at hhead
    simpa using hhead
  subst hm
  set t2 : DrainThread := { t with phase := Phase.persisting } with ht2
  have hth : isHolder t.key t = true := by
    unfold isHolder
    simp [hph, phase_awaiting_ne_done]
  have hsame : ∀ q, isHolder q t2 = isHolder q t := by
    intro q
    unfold isHolder
    simp [ht2, hph, phase_awaiting_ne_done, phase_persisting_ne_done]
  have hlen : i < s.threads.length := (List.getElem?_eq_some.1 hti).1
  intro k'
  obtain ⟨h1, h2, h3, h4, h5⟩ := hinv k'
  by_cases hk : k' = t.key
  · subst hk
    refine ⟨?_, fun hb => ?_, ?_, ?_, fun _ => ?_⟩
    · simpa [Sys.setKey_threads, countP_set_same _ _ _ _ _ hti (hsame _)] using h1
    · exfalso
      rw [Sys.setKey_keys_self] at hb
      have hb2 : (s.keys t.key).busy = false := hb
      have hz := h2 hb2
      have ho := one_le_countP_of_getElem _ s.threads i t hti hth
      omega
    · rw [Sys.setKey_keys_self]
      show (s.keys t.key).enqLog = ((s.keys t.key).remLog ++ hd :: rest) ++ []
      rw [h3, hq, List.append_nil]
    · intro j u m' hju hm'
      by_cases hij : i = j
      · subst hij
        simp only [Sys.setKey_threads] at hju
        rw [List.getElem?_set_self hlen] at hju
        have : t2 = u := by injection hju
        subst this
        unfold awaitMsg at hm'
        simp [ht2] at hm'
      · simp only [Sys.setKey_threads] at hju
        rw [List.getElem?_set_ne hij] at hju
        exfalso
        have hu : isInflight t.key u = true := by
          unfold isInflight
          rw [hm']
          rfl
        have h2c := two_le_countP_of_getElem (isHolder t.key) s.threads i j t u
          hij hti hju hth (isHolder_of_isInflight _ _ hu)
        omega
    · rw [Sys.setKey_keys_self]
      show (s.keys t.key).invLog.Sublist ((s.keys t.key).remLog ++ hd :: rest)
      rw [hinvlog]
      exact List.Sublist.append hsubp ((List.nil_sublist rest).cons₂ hd)
  · have hkk : t.key ≠ k' := fun hc => hk hc.symm
    have hinfq : isInflight k' t2 = isInflight k' t := by
      unfold isInflight awaitMsg
      simp [ht2, hkk]
    refine ⟨?_, fun hb => ?_, ?_, ?_, fun hno => ?_⟩
    · simpa [Sys.setKey_threads, countP_set_same _ _ _ _ _ hti (hsame _)] using h1
    · rw [Sys.setKey_keys_ne _ _ _ _ hk] at hb
      simpa [Sys.setKey_threads, countP_set_same _ _ _ _ _ hti (hsame _)] using h2 hb
    · rw [Sys.setKey_keys_ne _ _ _ _ hk]
      exact h3
    · intro j u m' hju hm'
      rw [Sys.setKey_keys_ne _ _ _ _ hk]
      by_cases hij : i = j
      · subst hij
        simp only [Sys.setKey_threads] at hju
        rw [List.getElem?_set_self hlen] at hju
        have : t2 = u := by injection hju
        subst this
        unfold awaitMsg at hm'
        simp [ht2, hkk] at hm'
      · simp only [Sys.setKey_threads] at hju
        rw [List.getElem?_set_ne hij] at hju
        exact h4 j u m' hju hm'
    · rw [Sys.setKey_keys_ne _ _ _ _ hk]
      simp only [Sys.setKey_threads] at hno
      rw [countP_set_same _ _ _ _ _ hti hinfq] at hno
      exact h5 hno

theorem inv_stepRespond (s : Sys) (i : Nat) (r : LoopResp) (h : SysInv s) :
    SysInv (stepRespond s i r) := by
  unfold stepRespond
  cases hti : s.threads[i]? with
  | none => simp only [hti]; exact h
  | some t =>
    simp only [hti]
    cases hph : t.phase with
    | running => exact h
    | persisting => exact h
    | done => exact h
    | awaiting m0 =>
      cases hq : (s.keys t.key).queue with
      | nil => exact h
      | cons hd rest =>
        cases r with
        | failure => exact inv_respond_shift s i t m0 hd rest _ hti hph hq h (Or.inr rfl)
        | okImmediate => exact inv_respond_shift s i t m0 hd rest _ hti hph hq h (Or.inl rfl)
        | okWait => exact inv_respond_shift s i t m0 hd rest _ hti hph hq h (Or.inr rfl)
        | okReject => exact inv_respond_reject s i t m0 hd rest hti hph hq h

theorem inv_stepFinish (s : Sys) (i : Nat) (h : SysInv s) :
    SysInv (stepFinish s i) := by
  unfold stepFinish
  cases hti : s.threads[i]? with
  | none => simp only [hti]; exact h
  | some t =>
    simp only [hti]
    cases hph : t.phase with
    | running => exact h
    | awaiting m => exact h
    | done => exact h
    | persisting =>
      have hlen : i < s.threads.length := (List.getElem?_eq_some.1 hti).1
      set t2 : DrainThread := { t with phase := Phase.done } with ht2
      have hth : isHolder t.key t = true := by
        unfold isHolder
        simp [hph, phase_persisting_ne_done]
      have hth2 : ∀ q, isHolder q t2 = false := by
        intro q
        unfold isHolder
        simp [ht2]
      have hinf : ∀ q, isInflight q t = false := by
        intro q
        unfold isInflight awaitMsg
        by_cases hk : t.key = q <;> simp [hph, hk]
      have hinf2 : ∀ q, isInflight q t2 = false := by
        intro q
        unfold isInflight awaitMsg
        by_cases hk : t.key = q <;> simp [ht2, hk]
      intro k'
      obtain ⟨h1, h2, h3, h4, h5⟩ := h k'
      by_cases hk : k' = t.key
      · subst hk
        have hone := one_le_countP_of_getElem _ s.threads i t hti hth
        have hdrop := countP_set_drop (isHolder t.key) s.threads i t t2 hti hth (hth2 _)
        refine ⟨?_, fun _ => ?_, ?_, ?_, fun hno => ?_⟩
        · simp only [Sys.setKey_threads]
          omega
        · simp only [Sys.setKey_threads]
          omega
        · rw [Sys.setKey_keys_self]
          exact h3
        · intro j u m' hju hm'
          rw [Sys.setKey_keys_self]
          by_cases hij : i = j
          · subst hij
            simp only [Sys.setKey_threads] at hju
            rw [List.getElem?_set_self hlen] at hju
            have : t2 = u := by injection hju
            subst this
            unfold awaitMsg at hm'
            by_cases hq : t2.key = t.key <;> simp [ht2, hq] at hm'
          · simp only [Sys.setKey_threads] at hju
            rw [List.getElem?_set_ne hij] at hju
            exact h4 j u m' hju hm'
        · rw [Sys.setKey_keys_self]
          simp only [Sys.setKey_threads] at hno
          rw [countP_set_same _ _ _ _ _ hti (by rw [hinf2, hinf])] at hno
          exact h5 hno
      · have hkk : t.key ≠ k' := fun hc => hk hc.symm
        have hsame : isHolder k' t2 = isHolder k' t := by
          unfold isHolder
          simp [ht2, hkk]
        refine ⟨?_, fun hb => ?_, ?_, ?_, fun hno => ?_⟩
        · simpa [Sys.setKey_threads, countP_set_same _ _ _ _ _ hti hsame] using h1
        · rw [Sys.setKey_keys_ne _ _ _ _ hk] at hb
          simpa [Sys.setKey_threads, countP_set_same _ _ _ _ _ hti hsame] using h2 hb
        · rw [Sys.setKey_keys_ne _ _ _ _ hk]
          exact h3
        · intro j u m' hju hm'
          rw [Sys.setKey_keys_ne _ _ _ _ hk]
          by_cases hij : i = j
          · subst hij
            simp only [Sys.setKey_threads] at hju
            rw [List.getElem?_set_self hlen] at hju
            have : t2 = u := by injection hju
            subst this
            unfold awaitMsg at hm'
            simp [ht2, hkk] at hm'
          · simp only [Sys.setKey_threads] at hju
            rw [List.getElem?_set_ne hij] at hju
            exact h4 j u m' hju hm'
        · rw [Sys.setKey_keys_ne _ _ _ _ hk]
          simp only [Sys.setKey_threads] at hno
          rw [countP_set_same _ _ _ _ _ hti (by rw [hinf2, hinf])] at hno
          exact h5 hno

theorem inv_stepSys (s : Sys) (a : SysAct) (h : SysInv s) : SysInv (stepSys s a) := by
  cases a with
  | route k mid => exact inv_stepRoute s k mid h
  | enter k => exact inv_stepEnter s k h
  | readHead i => exact inv_stepReadHead s i h
  | respond i r => exact inv_stepRespond s i r h
  | finish i => exact inv_stepFinish s i h

theorem inv_runSys (acts : List SysAct) :
    ∀ s : Sys, SysInv s → SysInv (runSys s acts) := by
  induction acts with
  | nil => intro s h; exact h
  | cons a rest ih =>
    intro s h
    exact ih (stepSys s a) (inv_stepSys s a h)

theorem reachable_sysInv (s : Sys) (h : ReachableSys s) : SysInv s := by
  obtain ⟨acts, hacts⟩ := h
  rw [← hacts]
  exact inv_runSys acts initSys sysInv_init

/-- **C1.**  For every actor key and every sequence of messages enqueued for
that key via `route`, the Router delivers them to the actor activation's
`invoke` strictly in enqueue (FIFO) order, and at no reachable state are two
invocations for the same key in flight simultaneously: in every reachable
state of the interleaving model, (1) the number of in-flight invocations for
a key is at most one, and is zero whenever the key's `busy` flag is clear
(`processActorQueue` returns immediately on a busy key and sets `busy`
before its first call); (2) the sequence of messageIds handed to `invoke`
is a sublist, in order, of the sequence of messageIds enqueued by `route`;
(3) every in-flight invocation is for the current queue head. -/
theorem goldfish_C1_fifo_and_mutual_exclusion (s : Sys) (k : String)
    (h : ReachableSys s) :
    s.threads.countP (isInflight k) ≤ (if (s.keys k).busy then 1 else 0)
    ∧ ((s.keys k).invLog).Sublist ((s.keys k).enqLog)
    ∧ (∀ (i : Nat) (t : DrainThread) (m : String),
        s.threads[i]? = some t → awaitMsg k t = some m →
        (s.keys k).queue.head? = some m) := by
  obtain ⟨h1, h2, h3, h4, h5⟩ := reachable_sysInv s h k
  refine ⟨?_, ?_, fun i t m hti hm => (h4 i t m hti hm).1⟩
  · cases hb : (s.keys k).busy with
    | true =>
      simp only [if_pos rfl]
      exact le_trans (countP_inflight_le_holder k s.threads) h1
    | false =>
      simp only [Bool.false_eq_true, if_neg (fun hc : False => hc.elim)]
      have hz := h2 hb
      have := countP_inflight_le_holder k s.threads
      omega
  · by_cases hinf : s.threads.countP (isInflight k) = 0
    · have hsub := h5 hinf
      rw [h3]
      exact hsub.trans (List.sublist_append_left _ _)
    · have hpos : 0 < s.threads.countP (isInflight k) := Nat.pos_of_ne_zero hinf
      obtain ⟨u, hu, hpu⟩ := List.countP_pos_iff.1 hpos
      obtain ⟨j, hj, hju⟩ := List.mem_iff_getElem.1 hu
      have hju' : s.threads[j]? = some u := List.getElem?_eq_some.2 ⟨hj, hju⟩
      obtain ⟨m, hm⟩ : ∃ m, awaitMsg k u = some m := by
        unfold isInflight at hpu
        exact Option.isSome_iff_exists.1 hpu
      obtain ⟨hhead, pre, hinvlog, hsub⟩ := h4 j u m hju' hm
      obtain ⟨tl, hq⟩ : ∃ tl, (s.keys k).queue = m :: tl := by
        cases hqq : (s.keys k).queue with
        | nil => rw [hqq] at hhead; simp at hhead
        | cons x tl =>
          rw [hqq] at hhead
          simp only [List.head?_cons, Option.some.injEq] at hhead
          exact ⟨tl, by rw [hhead]⟩
      rw [h3, hq, hinvlog]
      exact List.Sublist.append hsub ((List.nil_sublist tl).cons₂ m)

/-- A concrete schedule exercising the model: two messages routed to one key,
one drain pass delivering both. -/
def c1Acts : List SysAct :=
  [SysAct.route "room:r1" "m1", SysAct.route "room:r1" "m2",
    SysAct.enter "room:r1", SysAct.readHead 0,
    SysAct.respond 0 LoopResp.okImmediate, SysAct.readHead 0,
    SysAct.respond 0 LoopResp.okWait, SysAct.finish 0]

/-- Witness for C1 at a concrete reachable state. -/
theorem goldfish_C1_witness :
    ReachableSys (runSys initSys c1Acts)
    ∧ (runSys initSys c1Acts).threads.countP (isInflight "room:r1")
        ≤ (if ((runSys initSys c1Acts).keys "room:r1").busy then 1 else 0)
    ∧ (((runSys initSys c1Acts).keys "room:r1").invLog).Sublist
        (((runSys initSys c1Acts).keys "room:r1").enqLog) := by
  have hr : ReachableSys (runSys initSys c1Acts) := ⟨c1Acts, rfl⟩
  have hmain := goldfish_C1_fifo_and_mutual_exclusion (runSys initSys c1Acts) "room:r1" hr
  exact ⟨hr, hmain.1, hmain.2.1⟩

/-! ## Support lemmas about the drain functions -/

/-- The fresh idle child state pre-registered for a spawned id. -/
def spawnChild (parent : ActorQueueState) (childId : String) : ActorQueueState :=
  { actorKey := parent.actorType ++ ":" ++ childId
    actorType := parent.actorType
    actorId := childId
    busy := false
    queue := []
    policy := parent.policy }

theorem registerSpawn_cons (parent : ActorQueueState) (c : String) (cs : List String)
    (actors : List (String × ActorQueueState)) :
    registerSpawn parent (c :: cs) actors =
      registerSpawn parent cs
        (match getEntry (parent.actorType ++ ":" ++ c) actors with
          | some _ => actors
          | none => setEntry (parent.actorType ++ ":" ++ c) (spawnChild parent c) actors) := by
  rfl

/-- Spawn pre-registration never disturbs an existing map entry. -/
theorem getEntry_registerSpawn (parent : ActorQueueState) :
    ∀ (spawn : List String) (actors : List (String × ActorQueueState))
      (k : String) (v : ActorQueueState), getEntry k actors = some v →
      getEntry k (registerSpawn parent spawn actors) = some v := by
  intro spawn
  induction spawn with
  | nil => intro actors k v h; exact h
  | cons c cs ih =>
    intro actors k v h
    rw [registerSpawn_cons]
    cases hc : getEntry (parent.actorType ++ ":" ++ c) actors with
    | some w => exact ih actors k v h
    | none =>
      have hck : parent.actorType ++ ":" ++ c ≠ k := by
        intro hcc
        rw [hcc, h] at hc
        cases hc
      exact ih _ k v (by rw [getEntry_setEntry_ne k _ _ hck]; exact h)

/-- Events delivered to a `PendingRequest` always concern an id that was in
the pending table when the drain call started. -/
def eventPendingOk (pending : List String) : DrainEvent → Prop
  | DrainEvent.resolved mid _ => mid ∈ pending
  | DrainEvent.rejectedPending mid _ => mid ∈ pending
  | _ => True

theorem eventPendingOk_of_erase (pending : List String) (x : String) (ev : DrainEvent)
    (h : eventPendingOk (pending.erase x) ev) : eventPendingOk pending ev := by
  cases ev with
  | resolved mid r => exact List.mem_of_mem_erase h
  | rejectedPending mid e => exact List.mem_of_mem_erase h
  | invoked k mid => trivial
  | actorReset k => trivial

theorem settlePending_log_mono (mid : String) (ev0 : DrainEvent)
    (pending : List String) (log : List DrainEvent) (ev : DrainEvent)
    (h : ev ∈ log) : ev ∈ (settlePending mid ev0 pending log).2 := by
  unfold settlePending
  by_cases hm : mid ∈ pending
  · simp only [if_pos hm]
    exact List.mem_append_left _ h
  · simp only [if_neg hm]
    exact h

theorem settlePending_events (mid : String) (ev0 : DrainEvent)
    (pending : List String) (log : List DrainEvent) (ev : DrainEvent)
    (h : ev ∈ (settlePending mid ev0 pending log).2) :
    ev ∈ log ∨ (ev = ev0 ∧ mid ∈ pending) := by
  unfold settlePending at h
  by_cases hm : mid ∈ pending
  · simp only [if_pos hm] at h
    rcases List.mem_append.1 h with h' | h'
    · left; exact h'
    · right; exact ⟨List.mem_singleton.1 h', hm⟩
  · simp only [if_neg hm] at h
    left; exact h

theorem settlePending_fst_sublist (mid : String) (ev0 : DrainEvent)
    (pending : List String) (log : List DrainEvent) :
    ((settlePending mid ev0 pending log).1).Sublist pending := by
  unfold settlePending
  by_cases hm : mid ∈ pending
  · simp only [if_pos hm]
    exact List.erase_sublist _ _
  · simp only [if_neg hm]
    exact List.Sublist.refl _

theorem rejectRemaining_log_mono :
    ∀ (q : List Message) (pending : List String) (log : List DrainEvent)
      (ev : DrainEvent), ev ∈ log → ev ∈ (rejectRemaining q pending log).2 := by
  intro q
  induction q with
  | nil => intro pending log ev h; exact h
  | cons m rest ih =>
    intro pending log ev h
    exact ih _ _ ev (settlePending_log_mono _ _ _ _ ev h)

theorem rejectRemaining_events :
    ∀ (q : List Message) (pending : List String) (log : List DrainEvent)
      (ev : DrainEvent), ev ∈ (rejectRemaining q pending log).2 →
      ev ∈ log ∨ eventPendingOk pending ev := by
  intro q
  induction q with
  | nil => intro pending log ev h; left; exact h
  | cons m rest ih =>
    intro pending log ev h
    rcases ih _ _ ev h with h' | h'
    · rcases settlePending_events _ _ _ _ ev h' with h'' | ⟨hev, hm⟩
      · left; exact h''
      · right
        subst hev
        exact hm
    · right
      unfold settlePending at h'
      by_cases hm : m.messageId ∈ pending
      · simp only [if_pos hm] at h'
        exact eventPendingOk_of_erase pending _ ev h'
      · simp only [if_neg hm] at h'
        exact h'

/-- Is an event an invocation start? -/
def isInvokedEvent : DrainEvent → Bool
  | DrainEvent.invoked _ _ => true
  | _ => false

theorem rejectRemaining_no_invoked :
    ∀ (q : List Message) (pending : List String) (log : List DrainEvent),
      ((rejectRemaining q pending log).2).filter isInvokedEvent =
        log.filter isInvokedEvent := by
  intro q
  induction q with
  | nil => intro pending log; rfl
  | cons m rest ih =>
    intro pending log
    rw [show rejectRemaining (m :: rest) pending log =
      rejectRemaining rest (settlePending m.messageId _ pending log).1
        (settlePending m.messageId _ pending log).2 from rfl]
    rw [ih]
    unfold settlePending
    by_cases hm : m.messageId ∈ pending
    · simp [if_pos hm, List.filter_append, isInvokedEvent]
    · simp [if_neg hm]

theorem rejectRemaining_rejects :
    ∀ (q : List Message) (pending : List String) (log : List DrainEvent)
      (m2 : Message), m2 ∈ q → m2.messageId ∈ pending →
      (q.map Message.messageId).Nodup →
      DrainEvent.rejectedPending m2.messageId "Message rejected by actor"
        ∈ (rejectRemaining q pending log).2 := by
  intro q
  induction q with
  | nil => intro pending log m2 h; cases h
  | cons m rest ih =>
    intro pending log m2 hmem hpend hnd
    rcases List.mem_cons.1 hmem with hEq | hmem'
    · subst hEq
      rw [show rejectRemaining (m2 :: rest) pending log =
        rejectRemaining rest (settlePending m2.messageId
            (DrainEvent.rejectedPending m2.messageId "Message rejected by actor")
            pending log).1
          (settlePending m2.messageId
            (DrainEvent.rejectedPending m2.messageId "Message rejected by actor")
            pending log).2 from rfl]
      apply rejectRemaining_log_mono
      unfold settlePending
      simp only [if_pos hpend]
      exact List.mem_append_right _ (List.mem_singleton.2 rfl)
    · have hne : m2.messageId ≠ m.messageId := by
        intro hc
        have h1 : m.messageId ∉ rest.map Message.messageId :=
          (List.nodup_cons.1 hnd).1
        exact h1 (hc ▸ List.mem_map_of_mem Message.messageId hmem')
      have hnd' : (rest.map Message.messageId).Nodup := (List.nodup_cons.1 hnd).2
      apply ih _ _ m2 hmem' _ hnd'
      unfold settlePending
      by_cases hm : m.messageId ∈ pending
      · simp only [if_pos hm]
        exact (List.mem_erase_of_ne hne).2 hpend
      · simp only [if_neg hm]
        exact hpend

theorem processActorQueue_not_busy (invoke : Message → InvokeResp) (now : Nat)
    (actorKey : String) (s : RouterState) (a : ActorQueueState)
    (hget : getEntry actorKey s.actors = some a) (hbusy : a.busy = false) :
    processActorQueue invoke now actorKey s =
      (let aBusy := { a with busy := true }
       let r := processQueueLoop invoke aBusy a.queue
         (setEntry actorKey aBusy s.actors) s.pendingResults []
       ({ actors := setEntry actorKey { a with busy := false, queue := r.1 } r.2.1
          pendingResults := r.2.2.1
          storage := persistActorState now { a with busy := true, queue := r.1 } s.storage },
        r.2.2.2)) := by
  unfold processActorQueue
  rw [hget]
  simp only [hbusy]
  rfl

theorem processActorQueue_busy (invoke : Message → InvokeResp) (now : Nat)
    (actorKey : String) (s : RouterState) (a : ActorQueueState)
    (hget : getEntry actorKey s.actors = some a) (hbusy : a.busy = true) :
    processActorQueue invoke now actorKey s = (s, []) := by
  unfold processActorQueue
  rw [hget]
  simp only [hbusy]
  rfl

theorem processActorQueue_absent (invoke : Message → InvokeResp) (now : Nat)
    (actorKey : String) (s : RouterState)
    (hget : getEntry actorKey s.actors = none) :
    processActorQueue invoke now actorKey s = (s, []) := by
  unfold processActorQueue
  rw [hget]

theorem settlePending_no_invoked (mid : String) (ev0 : DrainEvent)
    (pending : List String) (log : List DrainEvent)
    (h : isInvokedEvent ev0 = false) :
    ((settlePending mid ev0 pending log).2).filter isInvokedEvent =
      log.filter isInvokedEvent := by
  unfold settlePending
  by_cases hm : mid ∈ pending
  · simp [if_pos hm, List.filter_append, h]
  · simp [if_neg hm]

theorem mem_registerSpawn (parent : ActorQueueState) :
    ∀ (spawn : List String) (actors : List (String × ActorQueueState))
      (kv : String × ActorQueueState), kv ∈ registerSpawn parent spawn actors →
      kv ∈ actors ∨ kv.2.queue = [] := by
  intro spawn
  induction spawn with
  | nil => intro actors kv h; left; exact h
  | cons c cs ih =>
    intro actors kv h
    rw [registerSpawn_cons] at h
    cases hc : getEntry (parent.actorType ++ ":" ++ c) actors with
    | some w =>
      simp only [hc] at h
      exact ih actors kv h
    | none =>
      simp only [hc] at h
      rcases ih _ kv h with h' | h'
      · rcases mem_setEntry _ _ _ kv h' with h'' | h''
        · right
          rw [h'']
          rfl
        · left; exact h''
      · right; exact h'

theorem processQueueLoop_cons_failure (invoke : Message → InvokeResp)
    (a0 : ActorQueueState) (m : Message) (rest : List Message)
    (actors : List (String × ActorQueueState)) (pending : List String)
    (log : List DrainEvent) (status : Nat)
    (hinv : invoke m = InvokeResp.failure status) :
    processQueueLoop invoke a0 (m :: rest) actors pending log =
      (rest, actors,
        settlePending m.messageId
          (DrainEvent.rejectedPending m.messageId
            ("Actor DO error: " ++ toString status)) pending
          (log ++ [DrainEvent.invoked a0.actorKey m.messageId])) := by
  unfold processQueueLoop
  rw [hinv]

theorem processQueueLoop_cons_success (invoke : Message → InvokeResp)
    (a0 : ActorQueueState) (m : Message) (rest : List Message)
    (actors : List (String × ActorQueueState)) (pending : List String)
    (log : List DrainEvent) (env : Envelope)
    (hinv : invoke m = InvokeResp.success env) :
    processQueueLoop invoke a0 (m :: rest) actors pending log =
      (let actors1 := registerSpawn a0 env.spawn actors
       let pl := settlePending m.messageId
         (DrainEvent.resolved m.messageId env.result) pending
         (log ++ [DrainEvent.invoked a0.actorKey m.messageId])
       if env.nextPolicy.mode = "wait" then (rest, actors1, pl.1, pl.2)
       else if env.nextPolicy.mode = "reject" then
         let pl2 := rejectRemaining rest pl.1 pl.2
         (([] : List Message), actors1, pl2.1, pl2.2)
       else processQueueLoop invoke a0 rest actors1 pl.1 pl.2) := by
  simp only [processQueueLoop, hinv]


theorem processQueueLoop_queue_sublist (invoke : Message → InvokeResp)
    (a0 : ActorQueueState) :
    ∀ (q : List Message) (actors : List (String × ActorQueueState))
      (pending : List String) (log : List DrainEvent),
      ((processQueueLoop invoke a0 q actors pending log).1).Sublist q := by
  intro q
  induction q with
  | nil => intro actors pending log; exact List.Sublist.refl _
  | cons m rest ih =>
    intro actors pending log
    cases hinv : invoke m with
    | failure status =>
      rw [processQueueLoop_cons_failure invoke a0 m rest actors pending log status hinv]
      exact List.sublist_cons_self m rest
    | success env =>
      rw [processQueueLoop_cons_success invoke a0 m rest actors pending log env hinv]
      by_cases hw : env.nextPolicy.mode = "wait"
      · simp only [if_pos hw]
        exact List.sublist_cons_self m rest
      · by_cases hr : env.nextPolicy.mode = "reject"
        · simp only [if_neg hw, if_pos hr]
          exact List.nil_sublist _
        · simp only [if_neg hw, if_neg hr]
          exact (ih _ _ _).trans (List.sublist_cons_self m rest)

theorem processQueueLoop_getEntry (invoke : Message → InvokeResp)
    (a0 : ActorQueueState) :
    ∀ (q : List Message) (actors : List (String × ActorQueueState))
      (pending : List String) (log : List DrainEvent) (k : String)
      (v : ActorQueueState), getEntry k actors = some v →
      getEntry k (processQueueLoop invoke a0 q actors pending log).2.1 = some v := by
  intro q
  induction q with
  | nil => intro actors pending log k v h; exact h
  | cons m rest ih =>
    intro actors pending log k v h
    cases hinv : invoke m with
    | failure status =>
      rw [processQueueLoop_cons_failure invoke a0 m rest actors pending log status hinv]
      exact h
    | success env =>
      rw [processQueueLoop_cons_success invoke a0 m rest actors pending log env hinv]
      have h1 := getEntry_registerSpawn a0 env.spawn actors k v h
      by_cases hw : env.nextPolicy.mode = "wait"
      · simp only [if_pos hw]
        exact h1
      · by_cases hr : env.nextPolicy.mode = "reject"
        · simp only [if_neg hw, if_pos hr]
          exact h1
        · simp only [if_neg hw, if_neg hr]
          exact ih _ _ _ k v h1

theorem processQueueLoop_mem_actors (invoke : Message → InvokeResp)
    (a0 : ActorQueueState) :
    ∀ (q : List Message) (actors : List (String × ActorQueueState))
      (pending : List String) (log : List DrainEvent) (kv : String × ActorQueueState),
      kv ∈ (processQueueLoop invoke a0 q actors pending log).2.1 →
      kv ∈ actors ∨ kv.2.queue = [] := by
  intro q
  induction q with
  | nil => intro actors pending log kv h; left; exact h
  | cons m rest ih =>
    intro actors pending log kv h
    cases hinv : invoke m with
    | failure status =>
      rw [processQueueLoop_cons_failure invoke a0 m rest actors pending log status hinv] at h
      left; exact h
    | success env =>
      rw [processQueueLoop_cons_success invoke a0 m rest actors pending log env hinv] at h
      by_cases hw : env.nextPolicy.mode = "wait"
      · simp only [if_pos hw] at h
        exact mem_registerSpawn a0 env.spawn actors kv h
      · by_cases hr : env.nextPolicy.mode = "reject"
        · simp only [if_neg hw, if_pos hr] at h
          exact mem_registerSpawn a0 env.spawn actors kv h
        · simp only [if_neg hw, if_neg hr] at h
          rcases ih _ _ _ kv h with h' | h'
          · exact mem_registerSpawn a0 env.spawn actors kv h'
          · right; exact h'

theorem processQueueLoop_log_mono (invoke : Message → InvokeResp)
    (a0 : ActorQueueState) :
    ∀ (q : List Message) (actors : List (String × ActorQueueState))
      (pending : List String) (log : List DrainEvent) (ev : DrainEvent),
      ev ∈ log → ev ∈ (processQueueLoop invoke a0 q actors pending log).2.2.2 := by
  intro q
  induction q with
  | nil => intro actors pending log ev h; exact h
  | cons m rest ih =>
    intro actors pending log ev h
    have h1 : ev ∈ log ++ [DrainEvent.invoked a0.actorKey m.messageId] :=
      List.mem_append_left _ h
    cases hinv : invoke m with
    | failure status =>
      rw [processQueueLoop_cons_failure invoke a0 m rest actors pending log status hinv]
      exact settlePending_log_mono _ _ _ _ ev h1
    | success env =>
      rw [processQueueLoop_cons_success invoke a0 m rest actors pending log env hinv]
      have h2 := settlePending_log_mono m.messageId
        (DrainEvent.resolved m.messageId env.result) pending _ ev h1
      by_cases hw : env.nextPolicy.mode = "wait"
      · simp only [if_pos hw]
        exact h2
      · by_cases hr : env.nextPolicy.mode = "reject"
        · simp only [if_neg hw, if_pos hr]
          exact rejectRemaining_log_mono _ _ _ ev h2
        · simp only [if_neg hw, if_neg hr]
          exact ih _ _ _ ev h2

theorem eventPendingOk_settle (mid : String) (ev0 : DrainEvent)
    (pending : List String) (log : List DrainEvent) (ev : DrainEvent)
    (h : eventPendingOk (settlePending mid ev0 pending log).1 ev) :
    eventPendingOk pending ev := by
  unfold settlePending at h
  by_cases hm : mid ∈ pending
  · simp only [if_pos hm] at h
    exact eventPendingOk_of_erase pending _ ev h
  · simp only [if_neg hm] at h
    exact h

theorem settle_invoked_events (mid : String) (ev0 : DrainEvent)
    (pending : List String) (log : List DrainEvent) (ak mi : String)
    (ev : DrainEvent)
    (hok : mid ∈ pending → eventPendingOk pending ev0)
    (h : ev ∈ (settlePending mid ev0 pending
      (log ++ [DrainEvent.invoked ak mi])).2) :
    ev ∈ log ∨ eventPendingOk pending ev := by
  rcases settlePending_events _ _ _ _ ev h with h' | ⟨hev, hm⟩
  · rcases List.mem_append.1 h' with h'' | h''
    · left; exact h''
    · right
      rw [List.mem_singleton.1 h'']
      trivial
  · right
    rw [hev]
    exact hok hm

theorem processQueueLoop_events (invoke : Message → InvokeResp)
    (a0 : ActorQueueState) :
    ∀ (q : List Message) (actors : List (String × ActorQueueState))
      (pending : List String) (log : List DrainEvent) (ev : DrainEvent),
      ev ∈ (processQueueLoop invoke a0 q actors pending log).2.2.2 →
      ev ∈ log ∨ eventPendingOk pending ev := by
  intro q
  induction q with
  | nil => intro actors pending log ev h; left; exact h
  | cons m rest ih =>
    intro actors pending log ev h
    cases hinv : invoke m with
    | failure status =>
      rw [processQueueLoop_cons_failure invoke a0 m rest actors pending log status hinv] at h
      exact settle_invoked_events _ _ _ _ _ _ ev (fun hm => hm) h
    | success env =>
      rw [processQueueLoop_cons_success invoke a0 m rest actors pending log env hinv] at h
      by_cases hw : env.nextPolicy.mode = "wait"
      · simp only [if_pos hw] at h
        exact settle_invoked_events _ _ _ _ _ _ ev (fun hm => hm) h
      · by_cases hr : env.nextPolicy.mode = "reject"
        · simp only [if_neg hw, if_pos hr] at h
          rcases rejectRemaining_events _ _ _ ev h with h' | h'
          · exact settle_invoked_events _ _ _ _ _ _ ev (fun hm => hm) h'
          · right
            exact eventPendingOk_settle _ _ _ _ ev h'
        · simp only [if_neg hw, if_neg hr] at h
          rcases ih _ _ _ ev h with h' | h'
          · exact settle_invoked_events _ _ _ _ _ _ ev (fun hm => hm) h'
          · right
            exact eventPendingOk_settle _ _ _ _ ev h'

/-! ## Claim theorems -/

/-- **C7.**  For every route call in which `actorType` or `actorId` is
missing (or empty, i.e. falsy), the `/invoke` route pipeline returns the
400 validation error immediately and leaves the Router state untouched —
no `ActorQueueState` is created or modified and nothing is enqueued
(`handleRoute` is never reached; the check lives in the worker front door,
which is the only public path into `route`). -/
theorem goldfish_C7_validation_error (b : InvokeBody) (mid : String) (now : Nat)
    (s : RouterState) (h : truthy b.actorType = false ∨ truthy b.actorId = false) :
    workerInvoke (some b) mid now s = (s, WorkerResp.missingFields) := by
  unfold workerInvoke
  rcases h with h | h <;> simp [h]

/-- Witness for C7: a request with no `actorType`. -/
theorem goldfish_C7_witness :
    (truthy (none : Option String) = false ∨ truthy (some "r1") = false)
    ∧ workerInvoke (some { actorType := none, actorId := some "r1", payload := none })
        "m1" 0 initRouter = (initRouter, WorkerResp.missingFields) :=
  ⟨Or.inl (by decide),
    goldfish_C7_validation_error _ "m1" 0 initRouter (Or.inl (by decide))⟩

theorem invokeActor_preserves_init (handle : Option String → Nat → Mem → Mem × Envelope)
    (p : Option String) (now : Nat) (a : ActorDO) (h : a.initialized = true) :
    (invokeActor handle p now a).1.initialized = true
    ∧ (invokeActor handle p now a).1.reads = a.reads := by
  unfold invokeActor ensureInitialized
  simp [h]

theorem runInvokes_preserves_init (handle : Option String → Nat → Mem → Mem × Envelope) :
    ∀ (ops : List (Option String × Nat)) (a : ActorDO), a.initialized = true →
      (runInvokes handle ops a).initialized = true
      ∧ (runInvokes handle ops a).reads = a.reads := by
  intro ops
  induction ops with
  | nil => intro a h; exact ⟨h, rfl⟩
  | cons op rest ih =>
    intro a h
    obtain ⟨h1, h2⟩ := invokeActor_preserves_init handle op.1 op.2 a h
    obtain ⟨h3, h4⟩ := ih _ h1
    refine ⟨h3, ?_⟩
    show (runInvokes handle rest (invokeActor handle op.1 op.2 a).1).reads = a.reads
    rw [h4, h2]

/-- **C8.**  Actor memory round-trips through durable storage: within one
activation, any sequence of `/invoke` calls performs at most one
`storage.get("memory")` (the load is cached); after every invoke the full
memory object has been persisted (`storageMem` equals the cached memory);
invoking once, discarding the in-memory cache (a fresh activation over the
same storage) and reloading yields the same mutated memory as before the
discard; and a load over empty storage yields the empty object. -/
theorem goldfish_C8_memory_roundtrip
    (handle : Option String → Nat → Mem → Mem × Envelope) (st : Option Mem)
    (ops : List (Option String × Nat)) (p : Option String) (now : Nat) :
    (runInvokes handle ops (newActivation st)).reads ≤ 1
    ∧ ((invokeActor handle p now (runInvokes handle ops (newActivation st))).1.storageMem
        = (invokeActor handle p now (runInvokes handle ops (newActivation st))).1.memory)
    ∧ ((ensureInitialized (discardActivation
          (invokeActor handle p now (newActivation st)).1)).memory
        = (invokeActor handle p now (newActivation st)).1.memory)
    ∧ (ensureInitialized (newActivation none)).memory = some ([] : Mem) := by
  refine ⟨?_, ?_, ?_, ?_⟩
  · cases ops with
    | nil => simp [runInvokes, newActivation]
    | cons op rest =>
      have hfirst : (invokeActor handle op.1 op.2 (newActivation st)).1.initialized = true
          ∧ (invokeActor handle op.1 op.2 (newActivation st)).1.reads = 1 := by
        unfold invokeActor ensureInitialized newActivation
        simp
      have hrun := runInvokes_preserves_init handle rest _ hfirst.1
      have : runInvokes handle (op :: rest) (newActivation st) =
          runInvokes handle rest (invokeActor handle op.1 op.2 (newActivation st)).1 := rfl
      rw [this, hrun.2, hfirst.2]
  · unfold invokeActor
    rfl
  · unfold invokeActor discardActivation newActivation ensureInitialized
    simp
  · unfold ensureInitialized newActivation
    simp

/-- The failing input for C3: one queued message for `room:r1`, an
`immediate` handler response. -/
def c3Msg : Message := { messageId := "m1", payload := some "x", enqueuedAt := 1 }

def c3State : RouterState :=
  { actors := [("room:r1", { freshActorState "room" "r1" with queue := [c3Msg] })]
    pendingResults := ["m1"]
    storage := [] }

def c3Invoke : Message → InvokeResp := fun _ =>
  InvokeResp.success
    { result := some "ok", nextPolicy := { mode := "immediate" }, spawn := [] }

/-- **C3 (code evaluated at the failing input).**  The claim (and the spec)
say the metadata snapshot persisted after a drain has `busy = false`; but
`persistActorState` is awaited *inside* the `try`, before the `finally`
clears the flag, so the snapshot is written with `busy = true`.  Draining
one `immediate` message for `room:r1` persists
`{busy: true, queueLength: 0, updatedAt: now}`. -/
theorem goldfish_C3_persisted_snapshot_busy_true :
    getEntry "meta:room:r1"
        (processActorQueue c3Invoke 5 "room:r1" c3State).1.storage
      = some { busy := true, queueLength := 0, actorType := "room",
               actorId := "r1", updatedAt := 5 } := by
  rfl

/-- Concrete storage for the C9 counterexample. -/
def c9Meta : Meta :=
  { busy := false, queueLength := 0, actorType := "room", actorId := "r1", updatedAt := 0 }

def c9State : RouterState :=
  { actors := [], pendingResults := [], storage := [("meta:room:r1", c9Meta)] }

/-- **C9 (counterexample).**  The claim says `cleared` holds the ActorKeys
(`type:id`, without any storage-key prefix); the code answers
`cleared: [...all.keys()]`, i.e. the raw storage keys.  With one stored
entry `meta:room:r1`, `adminReset("room:")` returns
`cleared = ["meta:room:r1"]`, not `["room:r1"]`. -/
theorem goldfish_C9_counterexample :
    (adminReset (some "room:") c9State).2.1 = ["meta:room:r1"]
    ∧ (adminReset (some "room:") c9State).2.1 ≠ ["room:r1"] := by
  constructor
  · rfl
  · decide

theorem getEntry_dropEntries {α : Type} (p : String → Bool) (k : String) :
    ∀ l : List (String × α),
      getEntry k (dropEntries p l) = if p k then none else getEntry k l := by
  intro l
  induction l with
  | nil =>
    unfold dropEntries
    simp only [List.filter_nil, getEntry]
    cases p k <;> simp
  | cons kv rest ih =>
    unfold dropEntries at ih ⊢
    rw [List.filter_cons]
    by_cases hkv : p kv.1
    · rw [if_neg (by simp [hkv])]
      rw [ih]
      by_cases hk : p k
      · simp [hk]
      · have hne : kv.1 ≠ k := by
          intro hc
          rw [hc] at hkv
          exact hk hkv
        rw [getEntry_cons]
        simp [hk, hne]
    · rw [if_pos (by simp [hkv])]
      rw [getEntry_cons, getEntry_cons, ih]
      by_cases hkk : kv.1 = k
      · have hk : ¬ p k = true := by
          rw [← hkk]
          exact hkv
        simp [hkk, hk]
      · by_cases hk : p k <;> simp [hkk, hk]

/-- **C9 (amended).**  `adminReset(actorTypePrefix)` responds
`{ok: true, cleared}` where `cleared` is exactly the list of *storage keys*
(`"meta:" ++ ActorKey`) of the metadata entries it deleted: every entry
whose storage key starts with `"meta:" ++ (actorTypePrefix || "")` is
deleted (and only those), and each corresponding actor activation is asked
to reset (identified by the key with the `meta:` prefix stripped). -/
theorem goldfish_C9_amended (actorTypePrefix : Option String) (s : RouterState) :
    (adminReset actorTypePrefix s).2.1 =
      (s.storage.filter
        (fun kv => strStartsWith kv.1 ("meta:" ++ actorTypePrefix.getD ""))).map Prod.fst
    ∧ (∀ k : String,
        getEntry k (adminReset actorTypePrefix s).1.storage =
          if strStartsWith k ("meta:" ++ actorTypePrefix.getD "") then none
          else getEntry k s.storage)
    ∧ (adminReset actorTypePrefix s).2.2 =
        ((adminReset actorTypePrefix s).2.1).map
          (fun k => DrainEvent.actorReset (k.drop 5)) := by
  refine ⟨rfl, ?_, ?_⟩
  · intro k
    exact getEntry_dropEntries
      (fun kk => strStartsWith kk ("meta:" ++ actorTypePrefix.getD "")) k s.storage
  · unfold adminReset
    simp [List.map_map]

theorem processQueueLoop_head_invoked (invoke : Message → InvokeResp)
    (a0 : ActorQueueState) (m : Message) (rest : List Message)
    (actors : List (String × ActorQueueState)) (pending : List String)
    (log : List DrainEvent) :
    DrainEvent.invoked a0.actorKey m.messageId
      ∈ (processQueueLoop invoke a0 (m :: rest) actors pending log).2.2.2 := by
  have h1 : DrainEvent.invoked a0.actorKey m.messageId
      ∈ log ++ [DrainEvent.invoked a0.actorKey m.messageId] :=
    List.mem_append_right _ (List.mem_singleton.2 rfl)
  cases hinv : invoke m with
  | failure status =>
    rw [processQueueLoop_cons_failure invoke a0 m rest actors pending log status hinv]
    exact settlePending_log_mono _ _ _ _ _ h1
  | success env =>
    rw [processQueueLoop_cons_success invoke a0 m rest actors pending log env hinv]
    have h2 := settlePending_log_mono m.messageId
      (DrainEvent.resolved m.messageId env.result) pending _ _ h1
    by_cases hw : env.nextPolicy.mode = "wait"
    · simp only [if_pos hw]
      exact h2
    · by_cases hr : env.nextPolicy.mode = "reject"
      · simp only [if_neg hw, if_pos hr]
        exact rejectRemaining_log_mono _ _ _ _ h2
      · simp only [if_neg hw, if_neg hr]
        exact processQueueLoop_log_mono invoke a0 _ _ _ _ _ h2

/-- **C4.**  For a route call whose `PendingRequest` is not resolved within
`timeoutMs`: the timer deletes the `PendingRequest` entry and the caller
gets the `"Processing timeout"` error (a 504), while every queue is left
untouched; when a later drain cycle processes that message, `invoke` is
still called for it, but since no `PendingRequest` remains the result is
silently discarded — no resolution and no rejection is ever delivered for
that messageId. -/
theorem goldfish_C4_timeout_then_discard (invoke : Message → InvokeResp)
    (s : RouterState) (key : String) (a : ActorQueueState) (m : Message)
    (rest : List Message) (env : Envelope) (now : Nat)
    (hnd : s.pendingResults.Nodup)
    (hget : getEntry key s.actors = some a)
    (hbusy : a.busy = false)
    (hq : a.queue = m :: rest)
    (hinv : invoke m = InvokeResp.success env) :
    (routeTimeout m.messageId s).1.actors = s.actors
    ∧ (routeTimeout m.messageId s).2 = "Processing timeout"
    ∧ m.messageId ∉ (routeTimeout m.messageId s).1.pendingResults
    ∧ DrainEvent.invoked a.actorKey m.messageId
        ∈ (processActorQueue invoke now key (routeTimeout m.messageId s).1).2
    ∧ (∀ r : Option String, DrainEvent.resolved m.messageId r
        ∉ (processActorQueue invoke now key (routeTimeout m.messageId s).1).2)
    ∧ (∀ e : String, DrainEvent.rejectedPending m.messageId e
        ∉ (processActorQueue invoke now key (routeTimeout m.messageId s).1).2) := by
  have hmid : m.messageId ∉ (routeTimeout m.messageId s).1.pendingResults := by
    intro hc
    have := (List.Nodup.mem_erase_iff hnd).1 hc
    exact this.1 rfl
  have hget' : getEntry key (routeTimeout m.messageId s).1.actors = some a := hget
  rw [processActorQueue_not_busy invoke now key (routeTimeout m.messageId s).1 a hget' hbusy]
  refine ⟨rfl, rfl, hmid, ?_, ?_, ?_⟩
  · show DrainEvent.invoked a.actorKey m.messageId
      ∈ (processQueueLoop invoke { a with busy := true } a.queue
          (setEntry key { a with busy := true } (routeTimeout m.messageId s).1.actors)
          (routeTimeout m.messageId s).1.pendingResults []).2.2.2
    rw [hq]
    exact processQueueLoop_head_invoked invoke _ m rest _ _ _
  · intro r hc
    have hc' : DrainEvent.resolved m.messageId r
        ∈ (processQueueLoop invoke { a with busy := true } a.queue
            (setEntry key { a with busy := true } (routeTimeout m.messageId s).1.actors)
            (routeTimeout m.messageId s).1.pendingResults []).2.2.2 := hc
    rcases processQueueLoop_events invoke _ _ _ _ _ _ hc' with h' | h'
    · cases h'
    · exact hmid h'
  · intro e hc
    have hc' : DrainEvent.rejectedPending m.messageId e
        ∈ (processQueueLoop invoke { a with busy := true } a.queue
            (setEntry key { a with busy := true } (routeTimeout m.messageId s).1.actors)
            (routeTimeout m.messageId s).1.pendingResults []).2.2.2 := hc
    rcases processQueueLoop_events invoke _ _ _ _ _ _ hc' with h' | h'
    · cases h'
    · exact hmid h'

/-- Concrete state for the C4 witness. -/
def c4Msg : Message := { messageId := "m1", payload := some "x", enqueuedAt := 1 }

def c4State : RouterState :=
  { actors := [("room:r1", { freshActorState "room" "r1" with queue := [c4Msg] })]
    pendingResults := ["m1"]
    storage := [] }

def c4Invoke : Message → InvokeResp := fun _ =>
  InvokeResp.success
    { result := some "late", nextPolicy := { mode := "immediate" }, spawn := [] }

/-- Witness for C4: the timed-out message is still invoked, nothing is ever
delivered for it. -/
theorem goldfish_C4_witness :
    (routeTimeout "m1" c4State).2 = "Processing timeout"
    ∧ "m1" ∉ (routeTimeout "m1" c4State).1.pendingResults
    ∧ DrainEvent.invoked "room:r1" "m1"
        ∈ (processActorQueue c4Invoke 9 "room:r1" (routeTimeout "m1" c4State).1).2
    ∧ DrainEvent.resolved "m1" (some "late")
        ∉ (processActorQueue c4Invoke 9 "room:r1" (routeTimeout "m1" c4State).1).2 := by
  have h := goldfish_C4_timeout_then_discard c4Invoke c4State "room:r1"
    { freshActorState "room" "r1" with queue := [c4Msg] } c4Msg []
    { result := some "late", nextPolicy := { mode := "immediate" }, spawn := [] } 9
    (by decide) (by decide) (by decide) (by decide) (by decide)
  exact ⟨h.2.1, h.2.2.1, h.2.2.2.1, h.2.2.2.2.1 (some "late")⟩

/-- Equation for `handleRoute` when the key already has an `ActorQueueState`. -/
theorem handleRoute_found (actorType actorId : String) (payload : Option String)
    (mid : String) (now : Nat) (s : RouterState) (a : ActorQueueState)
    (hget : getEntry (actorType ++ ":" ++ actorId) s.actors = some a) :
    handleRoute actorType actorId payload mid now s =
      (if a.policy.maxPayloadBytes < payloadSize payload then
        (s, RouteOutcome.payloadTooLarge)
      else if a.policy.queueLimit ≤ a.queue.length then
        (s, RouteOutcome.queueFull)
      else
        ({ s with
            actors := setEntry (actorType ++ ":" ++ actorId)
              { a with queue := a.queue ++
                  [{ messageId := mid, payload := payload, enqueuedAt := now }] } s.actors
            pendingResults := s.pendingResults ++ [mid] },
          RouteOutcome.accepted mid)) := by
  simp only [handleRoute, hget]

/-- Equation for `handleRoute` when the key is routed for the first time:
the fresh idle `ActorQueueState` is inserted *before* the admission checks. -/
theorem handleRoute_fresh (actorType actorId : String) (payload : Option String)
    (mid : String) (now : Nat) (s : RouterState)
    (hget : getEntry (actorType ++ ":" ++ actorId) s.actors = none) :
    handleRoute actorType actorId payload mid now s =
      (let fresh := freshActorState actorType actorId
       let actors1 := setEntry (actorType ++ ":" ++ actorId) fresh s.actors
       if defaultPolicy.maxPayloadBytes < payloadSize payload then
        ({ s with actors := actors1 }, RouteOutcome.payloadTooLarge)
      else if defaultPolicy.queueLimit ≤ 0 then
        ({ s with actors := actors1 }, RouteOutcome.queueFull)
      else
        ({ s with
            actors := setEntry (actorType ++ ":" ++ actorId)
              { fresh with queue :=
                  [{ messageId := mid, payload := payload, enqueuedAt := now }] } actors1
            pendingResults := s.pendingResults ++ [mid] },
          RouteOutcome.accepted mid)) := by
  simp only [handleRoute, hget]
  rfl

/-- Every queue respects its policy's `queueLimit`. -/
def queueBound (s : RouterState) : Bool :=
  s.actors.all (fun kv => decide (kv.2.queue.length ≤ kv.2.policy.queueLimit))

theorem queueBound_iff (s : RouterState) :
    queueBound s = true ↔
      ∀ kv ∈ s.actors, kv.2.queue.length ≤ kv.2.policy.queueLimit := by
  unfold queueBound
  rw [List.all_eq_true]
  constructor
  · intro h kv hm
    exact of_decide_eq_true (h kv hm)
  · intro h kv hm
    exact decide_eq_true (h kv hm)

theorem queueBound_handleRoute (actorType actorId : String) (payload : Option String)
    (mid : String) (now : Nat) (s : RouterState) (h : queueBound s = true) :
    queueBound (handleRoute actorType actorId payload mid now s).1 = true := by
  rw [queueBound_iff] at h ⊢
  cases hget : getEntry (actorType ++ ":" ++ actorId) s.actors with
  | some a =>
    rw [handleRoute_found actorType actorId payload mid now s a hget]
    by_cases hp : a.policy.maxPayloadBytes < payloadSize payload
    · simpa [if_pos hp] using h
    · by_cases hq : a.policy.queueLimit ≤ a.queue.length
      · simpa [if_neg hp, if_pos hq] using h
      · simp only [if_neg hp, if_neg hq]
        intro kv hm
        rcases mem_setEntry _ _ _ kv hm with he | he
        · rw [he]
          simp only [List.length_append, List.length_cons, List.length_nil]
          omega
        · exact h kv he
  | none =>
    rw [handleRoute_fresh actorType actorId payload mid now s hget]
    by_cases hp : defaultPolicy.maxPayloadBytes < payloadSize payload
    · simp only [if_pos hp]
      intro kv hm
      rcases mem_setEntry _ _ _ kv hm with he | he
      · rw [he]
        simp [freshActorState]
      · exact h kv he
    · simp only [if_neg hp, if_neg (by decide : ¬ defaultPolicy.queueLimit ≤ 0)]
      intro kv hm
      rcases mem_setEntry _ _ _ kv hm with he | he
      · rw [he]
        simp [freshActorState, defaultPolicy]
      · rcases mem_setEntry _ _ _ kv he with he' | he'
        · rw [he']
          simp [freshActorState, defaultPolicy]
        · exact h kv he'

theorem queueBound_processActorQueue (invoke : Message → InvokeResp) (now : Nat)
    (actorKey : String) (s : RouterState) (h : queueBound s = true) :
    queueBound (processActorQueue invoke now actorKey s).1 = true := by
  rw [queueBound_iff] at h ⊢
  cases hget : getEntry actorKey s.actors with
  | none =>
    rw [processActorQueue_absent invoke now actorKey s hget]
    exact h
  | some a =>
    cases hbusy : a.busy with
    | true =>
      rw [processActorQueue_busy invoke now actorKey s a hget hbusy]
      exact h
    | false =>
      rw [processActorQueue_not_busy invoke now actorKey s a hget hbusy]
      intro kv hm
      have hmem : (actorKey, a) ∈ s.actors := getEntry_mem actorKey s.actors a hget
      have ha : a.queue.length ≤ a.policy.queueLimit := h (actorKey, a) hmem
      have hqsub := processQueueLoop_queue_sublist invoke { a with busy := true }
        a.queue (setEntry actorKey { a with busy := true } s.actors) s.pendingResults []
      rcases mem_setEntry _ _ _ kv hm with he | he
      · rw [he]
        have := hqsub.length_le
        simp only []
        omega
      · rcases processQueueLoop_mem_actors invoke _ _ _ _ _ kv he with he' | he'
        · rcases mem_setEntry _ _ _ kv he' with he'' | he''
          · rw [he'']
            simpa using ha
          · exact h kv he''
        · rw [he']
          simp

theorem queueBound_drainLoopGo (invoke : Message → InvokeResp) (now : Nat) :
    ∀ (keys : List String) (s : RouterState) (log : List DrainEvent),
      queueBound s = true →
      queueBound (drainLoopGo invoke now keys s log).1 = true := by
  intro keys
  induction keys with
  | nil => intro s log h; exact h
  | cons k rest ih =>
    intro s log h
    unfold drainLoopGo
    cases hget : getEntry k s.actors with
    | none => exact ih s log h
    | some a =>
      by_cases hb : a.busy
      · simp only [if_pos hb]
        exact ih s log h
      · simp only [if_neg hb]
        by_cases he : a.queue.isEmpty
        · simp only [if_pos he]
          exact ih s log h
        · simp only [if_neg he]
          exact ih _ _ (queueBound_processActorQueue invoke now k s h)

theorem queueBound_applyOp (invoke : Message → InvokeResp) (s : RouterState)
    (op : RouterOp) (h : queueBound s = true) :
    queueBound (applyOp invoke s op) = true := by
  cases op with
  | route t i p mid now => exact queueBound_handleRoute t i p mid now s h
  | timeout mid => exact h
  | process k now => exact queueBound_processActorQueue invoke now k s h
  | drain now => exact queueBound_drainLoopGo invoke now _ s [] h
  | adminResetOp pfx => exact h

theorem reachable_queueBound (invoke : Message → InvokeResp) (s : RouterState)
    (h : ReachableRouter invoke s) : queueBound s = true := by
  obtain ⟨ops, hops⟩ := h
  rw [← hops]
  unfold runOps
  have : ∀ (l : List RouterOp) (s0 : RouterState), queueBound s0 = true →
      queueBound (l.foldl (applyOp invoke) s0) = true := by
    intro l
    induction l with
    | nil => intro s0 h0; exact h0
    | cons op rest ih =>
      intro s0 h0
      exact ih _ (queueBound_applyOp invoke s0 op h0)
  exact this ops initRouter (by decide)

/-- A payload one byte over the default `maxPayloadBytes = 64 * 1024`. -/
def bigPayload : String := String.mk (List.replicate 65537 'a')

theorem payloadSize_bigPayload : payloadSize (some bigPayload) = 65537 := by
  show bigPayload.length = 65537
  unfold bigPayload
  rw [show (String.mk (List.replicate 65537 'a')).length
      = (List.replicate 65537 'a').length from rfl]
  rw [List.length_replicate]

def c2Msg : Message := { messageId := "m0", payload := some "x", enqueuedAt := 0 }

def c2FullActor : ActorQueueState :=
  { freshActorState "room" "r1" with queue := List.replicate 100 c2Msg }

def c2FullState : RouterState :=
  { actors := [("room:r1", c2FullActor)], pendingResults := [], storage := [] }

/-- **C2 (counterexample).**  The claim says a submission finding the queue
already at `queueLimit` gets a QueueFull error; but the payload-size check
runs first, so a full queue together with an oversized payload yields
PayloadTooLarge, not QueueFull. -/
theorem goldfish_C2_counterexample :
    c2FullActor.queue.length = c2FullActor.policy.queueLimit
    ∧ (handleRoute "room" "r1" (some bigPayload) "m-new" 0 c2FullState).2
        = RouteOutcome.payloadTooLarge
    ∧ (handleRoute "room" "r1" (some bigPayload) "m-new" 0 c2FullState).2
        ≠ RouteOutcome.queueFull := by
  have hget : getEntry ("room" ++ ":" ++ "r1") c2FullState.actors = some c2FullActor := rfl
  have hbig : c2FullActor.policy.maxPayloadBytes < payloadSize (some bigPayload) := by
    rw [payloadSize_bigPayload]
    show 64 * 1024 < 65537
    omega
  rw [handleRoute_found "room" "r1" (some bigPayload) "m-new" 0 c2FullState c2FullActor hget,
    if_pos hbig]
  refine ⟨?_, rfl, by decide⟩
  show (List.replicate 100 c2Msg).length = (100 : Nat)
  simp

/-- **C2 (amended).**  For every actor key, if at admission time the key's
queue length already equals its policy's `queueLimit` *and the payload
passes the size check that runs first*, `handleRoute` returns a QueueFull
error and the state is unchanged (nothing enqueued, no `PendingRequest`
registered); `queue.length ≤ policy.queueLimit` holds for every key in
every reachable state; and once one queued message completes (here: the
head is processed and the handler pauses with `wait`), a subsequent
submission for that key is accepted. -/
theorem goldfish_C2_amended (invoke : Message → InvokeResp) (s : RouterState)
    (actorType actorId : String) (payload : Option String) (a : ActorQueueState)
    (m : Message) (rest : List Message) (env : Envelope)
    (hreach : ReachableRouter invoke s)
    (hget : getEntry (actorType ++ ":" ++ actorId) s.actors = some a)
    (hsize : payloadSize payload ≤ a.policy.maxPayloadBytes)
    (hfull : a.queue.length = a.policy.queueLimit)
    (hbusy : a.busy = false)
    (hq : a.queue = m :: rest)
    (hinv : invoke m = InvokeResp.success env)
    (hwait : env.nextPolicy.mode = "wait") :
    (∀ (mid : String) (now : Nat),
      handleRoute actorType actorId payload mid now s = (s, RouteOutcome.queueFull))
    ∧ queueBound s = true
    ∧ (∀ (mid2 : String) (now2 now3 : Nat),
        (handleRoute actorType actorId payload mid2 now2
          (processActorQueue invoke now3 (actorType ++ ":" ++ actorId) s).1).2
          = RouteOutcome.accepted mid2) := by
  have hsize' : ¬ a.policy.maxPayloadBytes < payloadSize payload := Nat.not_lt.2 hsize
  refine ⟨?_, reachable_queueBound invoke s hreach, ?_⟩
  · intro mid now
    rw [handleRoute_found actorType actorId payload mid now s a hget, if_neg hsize',
      if_pos (le_of_eq hfull.symm)]
  · intro mid2 now2 now3
    have hr : (processQueueLoop invoke { a with busy := true } a.queue
        (setEntry (actorType ++ ":" ++ actorId) { a with busy := true } s.actors)
        s.pendingResults []).1 = rest := by
      rw [hq, processQueueLoop_cons_success invoke _ m rest _ _ _ env hinv]
      simp only [if_pos hwait]
    have hkey : getEntry (actorType ++ ":" ++ actorId)
        (processActorQueue invoke now3 (actorType ++ ":" ++ actorId) s).1.actors
        = some { a with busy := false, queue := rest } := by
      rw [processActorQueue_not_busy invoke now3 _ s a hget hbusy]
      show getEntry (actorType ++ ":" ++ actorId)
        (setEntry (actorType ++ ":" ++ actorId) _ _) = _
      rw [getEntry_setEntry_self, hr]
    rw [handleRoute_found actorType actorId payload mid2 now2 _ _ hkey]
    have hsize'' : ¬ ({ a with busy := false, queue := rest } : ActorQueueState).policy.maxPayloadBytes
        < payloadSize payload := hsize'
    have hlen : ¬ ({ a with busy := false, queue := rest } : ActorQueueState).policy.queueLimit
        ≤ ({ a with busy := false, queue := rest } : ActorQueueState).queue.length := by
      show ¬ a.policy.queueLimit ≤ rest.length
      rw [hq] at hfull
      simp only [List.length_cons] at hfull
      omega
    rw [if_neg hsize'', if_neg hlen]

def c2Invoke : Message → InvokeResp := fun _ =>
  InvokeResp.success { result := none, nextPolicy := { mode := "wait" }, spawn := [] }

def c2MsgN (n : Nat) : Message :=
  { messageId := toString n, payload := some "x", enqueuedAt := 0 }

def c2Ops : List RouterOp :=
  (List.range 100).map (fun n => RouterOp.route "room" "r1" (some "x") (toString n) 0)

def c2Reached : RouterState := runOps c2Invoke c2Ops

def c2Queue : List Message := (List.range 100).map c2MsgN

def c2Actor : ActorQueueState := { freshActorState "room" "r1" with queue := c2Queue }

set_option maxRecDepth 100000 in
/-- Witness for C2: after 100 accepted routes the queue is full and a new
submission gets QueueFull; after one head message completes (`wait`), the
next submission is accepted. -/
theorem goldfish_C2_witness :
    ReachableRouter c2Invoke c2Reached
    ∧ handleRoute "room" "r1" (some "x") "m-new" 0 c2Reached
        = (c2Reached, RouteOutcome.queueFull)
    ∧ queueBound c2Reached = true
    ∧ (handleRoute "room" "r1" (some "x") "m2" 1
        (processActorQueue c2Invoke 2 "room:r1" c2Reached).1).2
        = RouteOutcome.accepted "m2" := by
  have hreach : ReachableRouter c2Invoke c2Reached := ⟨c2Ops, rfl⟩
  have h := goldfish_C2_amended c2Invoke c2Reached "room" "r1" (some "x") c2Actor
    (c2MsgN 0) c2Queue.tail
    { result := none, nextPolicy := { mode := "wait" }, spawn := [] }
    hreach (by decide) (by decide) (by decide) (by decide) (by decide) rfl rfl
  exact ⟨hreach, h.1 "m-new" 0, h.2.1, h.2.2 "m2" 1 2⟩

/-- The status entry produced for a key that lives only in Router memory. -/
def memStatusEntry (a : ActorQueueState) : StatusEntry :=
  { actorKey := a.actorKey
    actorType := a.actorType
    actorId := a.actorId
    busy := a.busy
    queueLength := a.queue.length
    policy := some a.policy
    metaUpdatedAt := none
    fromStorage := false
    fromMemory := true }

theorem getEntry_eq_none {α : Type} (key : String) :
    ∀ l : List (String × α), (∀ kv ∈ l, kv.1 ≠ key) → getEntry key l = none := by
  intro l
  induction l with
  | nil => intro h; rfl
  | cons kv rest ih =>
    intro h
    rw [getEntry_cons, if_neg (h kv (List.mem_cons_self _ _))]
    exact ih (fun kv' hm => h kv' (List.mem_cons_of_mem _ hm))

theorem getEntry_none_not_mem {α : Type} (key : String) :
    ∀ l : List (String × α), getEntry key l = none → key ∉ l.map Prod.fst := by
  intro l
  induction l with
  | nil => intro _ h; simp at h
  | cons kv rest ih =>
    intro h hm
    rw [getEntry_cons] at h
    by_cases hk : kv.1 = key
    · rw [if_pos hk] at h
      cases h
    · rw [if_neg hk] at h
      rcases List.mem_cons.1 hm with h' | h'
      · exact hk h'.symm
      · exact ih h h'

theorem setEntry_of_absent {α : Type} (k : String) (v : α) :
    ∀ l : List (String × α), getEntry k l = none → setEntry k v l = l ++ [(k, v)] := by
  intro l
  induction l with
  | nil => intro _; rfl
  | cons kv rest ih =>
    intro h
    rw [getEntry_cons] at h
    by_cases hk : kv.1 = k
    · rw [if_pos hk] at h
      cases h
    · rw [if_neg hk] at h
      unfold setEntry
      rw [if_neg hk, ih h]
      rfl

/-- Folding the memory overlay over states none of which carry `key` leaves
the `key` binding of the accumulator unchanged. -/
theorem statusFold_preserve (pfxA key : String) :
    ∀ (l : List ActorQueueState) (acc : List (String × StatusEntry)),
      (∀ b ∈ l, b.actorKey ≠ key) →
      getEntry key (l.foldl (statusMergeOne pfxA) acc) = getEntry key acc := by
  intro l
  induction l with
  | nil => intro acc _; rfl
  | cons b rest ih =>
    intro acc h
    have hb : b.actorKey ≠ key := h b (List.mem_cons_self _ _)
    have hrest : ∀ b' ∈ rest, b'.actorKey ≠ key :=
      fun b' hm => h b' (List.mem_cons_of_mem _ hm)
    rw [List.foldl_cons, ih _ hrest]
    unfold statusMergeOne
    by_cases hskip : (decide (pfxA ≠ "") && !(strStartsWith b.actorKey pfxA)) = true
    · rw [if_pos hskip]
    · rw [if_neg hskip]
      cases hacc : getEntry b.actorKey acc with
      | some e => exact getEntry_setEntry_ne key b.actorKey _ hb acc
      | none => exact getEntry_setEntry_ne key b.actorKey _ hb acc

/-- A memory-only key (no stored meta under its name, present in `actors`)
ends up in the merged status map as its `memStatusEntry`. -/
theorem statusFold_mem (pfxA key : String) :
    ∀ (l : List (String × ActorQueueState)) (acc : List (String × StatusEntry))
      (a : ActorQueueState),
      getEntry key l = some a → a.actorKey = key →
      (∀ kv ∈ l, kv.2.actorKey = kv.1) →
      (l.map Prod.fst).Nodup →
      getEntry key acc = none →
      ((decide (pfxA ≠ "") && !(strStartsWith a.actorKey pfxA)) = false) →
      getEntry key ((l.map Prod.snd).foldl (statusMergeOne pfxA) acc)
        = some (memStatusEntry a) := by
  intro l
  induction l with
  | nil => intro acc a h; cases h
  | cons kv rest ih =>
    intro acc a hget hak hcons hnd hacc hpfx
    rw [getEntry_cons] at hget
    rw [List.map_cons, List.foldl_cons]
    by_cases hk : kv.1 = key
    · rw [if_pos hk] at hget
      have ha : kv.2 = a := by injection hget
      subst ha
      have hrest : ∀ b ∈ rest.map Prod.snd, b.actorKey ≠ key := by
        intro b hm
        obtain ⟨kvb, hkvb, hb⟩ := List.mem_map.1 hm
        rw [← hb]
        rw [hcons kvb (List.mem_cons_of_mem _ hkvb)]
        intro hc
        have : key ∈ rest.map Prod.fst := by
          rw [← hc]
          exact List.mem_map_of_mem Prod.fst hkvb
        rw [← hk] at this
        exact (List.nodup_cons.1 (by simpa using hnd)).1 this
      rw [statusFold_preserve pfxA key _ _ hrest]
      unfold statusMergeOne
      rw [if_neg (by rw [hpfx]; intro hc; cases hc)]
      have hacc' : getEntry kv.2.actorKey acc = none := by
        rw [hak]
        exact hacc
      rw [hacc']
      show getEntry key (setEntry kv.2.actorKey (memStatusEntry kv.2) acc)
        = some (memStatusEntry kv.2)
      rw [hak]
      exact getEntry_setEntry_self key _ acc
    · rw [if_neg hk] at hget
      have hacc1 : getEntry key (statusMergeOne pfxA acc kv.2) = none := by
        unfold statusMergeOne
        by_cases hskip : (decide (pfxA ≠ "") && !(strStartsWith kv.2.actorKey pfxA)) = true
        · rw [if_pos hskip]
          exact hacc
        · rw [if_neg hskip]
          have hne : kv.2.actorKey ≠ key := by
            rw [hcons kv (List.mem_cons_self _ _)]
            exact hk
          cases hacc2 : getEntry kv.2.actorKey acc with
          | some e => rw [getEntry_setEntry_ne key _ _ hne]; exact hacc
          | none => rw [getEntry_setEntry_ne key _ _ hne]; exact hacc
      exact ih _ a hget hak
        (fun kv' hm => hcons kv' (List.mem_cons_of_mem _ hm))
        (by simpa using (List.nodup_cons.1 (by simpa using hnd)).2) hacc1 hpfx

theorem getEntry_statusFromStorage_none (pfxA key : String)
    (storage : List (String × Meta))
    (h : ∀ kv ∈ storage, kv.1.drop 5 ≠ key) :
    getEntry key (statusFromStorage pfxA storage) = none := by
  apply getEntry_eq_none
  intro kv' hm
  unfold statusFromStorage at hm
  obtain ⟨kv, hkv, hmap⟩ := List.mem_map.1 hm
  have hkv' : kv ∈ storage := (List.mem_filter.1 hkv).1
  rw [← hmap]
  exact h kv hkv'

/-- A memory-only key appears in `/status` output as its live snapshot. -/
theorem handleStatus_mem_of_memOnly (pfxA : String) (s : RouterState)
    (key : String) (a : ActorQueueState)
    (hget : getEntry key s.actors = some a) (hak : a.actorKey = key)
    (hcons : ∀ kv ∈ s.actors, kv.2.actorKey = kv.1)
    (hnd : (s.actors.map Prod.fst).Nodup)
    (hmeta : ∀ kv ∈ s.storage, kv.1.drop 5 ≠ key)
    (hpfx : (decide (pfxA ≠ "") && !(strStartsWith a.actorKey pfxA)) = false) :
    memStatusEntry a ∈ handleStatus pfxA s := by
  have hmerged := statusFold_mem pfxA key s.actors
    (statusFromStorage pfxA s.storage) a hget hak hcons hnd
    (getEntry_statusFromStorage_none pfxA key s.storage hmeta) hpfx
  unfold handleStatus
  exact List.mem_map_of_mem Prod.snd (getEntry_mem key _ _ hmerged)

theorem nodup_keys_setEntry_absent {α : Type} (k : String) (v : α)
    (l : List (String × α)) (hget : getEntry k l = none)
    (hnd : (l.map Prod.fst).Nodup) :
    ((setEntry k v l).map Prod.fst).Nodup := by
  rw [setEntry_of_absent k v l hget, List.map_append]
  refine List.Nodup.append hnd (by simp) ?_
  intro x hx hx'
  simp only [List.map_cons, List.map_nil, List.mem_singleton] at hx'
  rw [hx'] at hx
  exact getEntry_none_not_mem k l hget hx

/-- **C10.**  For every route call whose actor key has no existing
`ActorQueueState`, `handleRoute` inserts a fresh idle state into the
`actors` map *before* the admission checks run: even a call rejected with
PayloadTooLarge leaves a new empty entry behind (the QueueFull rejection is
unrealizable for a fresh key, whose empty queue is below any positive
limit), and a subsequent `/status` call reports that entry with
`fromMemory = true`, `fromStorage = false` and `queueLength = 0`. -/
theorem goldfish_C10_fresh_entry_on_rejection (s : RouterState)
    (actorType actorId : String) (payload : Option String) (mid : String) (now : Nat)
    (hfresh : getEntry (actorType ++ ":" ++ actorId) s.actors = none)
    (hbig : defaultPolicy.maxPayloadBytes < payloadSize payload)
    (hcons : ∀ kv ∈ s.actors, kv.2.actorKey = kv.1)
    (hnd : (s.actors.map Prod.fst).Nodup)
    (hmeta : ∀ kv ∈ s.storage, kv.1.drop 5 ≠ actorType ++ ":" ++ actorId)
    (hpfx : strStartsWith (actorType ++ ":" ++ actorId) (actorType ++ ":") = true) :
    (handleRoute actorType actorId payload mid now s).2 = RouteOutcome.payloadTooLarge
    ∧ getEntry (actorType ++ ":" ++ actorId)
        (handleRoute actorType actorId payload mid now s).1.actors
        = some (freshActorState actorType actorId)
    ∧ (freshActorState actorType actorId).queue = []
    ∧ (handleRoute actorType actorId payload mid now s).1.pendingResults
        = s.pendingResults
    ∧ memStatusEntry (freshActorState actorType actorId)
        ∈ handleStatus (actorType ++ ":") (handleRoute actorType actorId payload mid now s).1
    ∧ (memStatusEntry (freshActorState actorType actorId)).queueLength = 0
    ∧ (memStatusEntry (freshActorState actorType actorId)).fromMemory = true
    ∧ (memStatusEntry (freshActorState actorType actorId)).fromStorage = false := by
  have heq := handleRoute_fresh actorType actorId payload mid now s hfresh
  have hstat : memStatusEntry (freshActorState actorType actorId)
      ∈ handleStatus (actorType ++ ":")
        { s with actors := (setEntry (actorType ++ ":" ++ actorId) (freshActorState actorType actorId) s.actors) } := by
    apply handleStatus_mem_of_memOnly (actorType ++ ":")
      { s with actors := (setEntry (actorType ++ ":" ++ actorId) (freshActorState actorType actorId) s.actors) }
      (actorType ++ ":" ++ actorId) (freshActorState actorType actorId)
      (getEntry_setEntry_self _ _ _) rfl
    · intro kv hm
      rcases mem_setEntry _ _ _ kv hm with he | he
      · rw [he]
        rfl
      · exact hcons kv he
    · exact nodup_keys_setEntry_absent _ _ s.actors hfresh hnd
    · exact hmeta
    · rw [show (freshActorState actorType actorId).actorKey
        = actorType ++ ":" ++ actorId from rfl, hpfx]
      simp
  refine ⟨?_, ?_, rfl, ?_, ?_, rfl, rfl, rfl⟩
  · rw [heq]
    simp only [if_pos hbig]
  · rw [heq]
    simp only [if_pos hbig]
    exact getEntry_setEntry_self _ _ _
  · rw [heq]
    simp only [if_pos hbig]
  · rw [heq]
    simp only [if_pos hbig]
    exact hstat

/-- Witness for C10: an oversized payload routed to a fresh Router still
creates the idle entry, visible to `/status`. -/
theorem goldfish_C10_witness :
    (handleRoute "room" "r1" (some bigPayload) "m1" 0 initRouter).2
        = RouteOutcome.payloadTooLarge
    ∧ getEntry "room:r1"
        (handleRoute "room" "r1" (some bigPayload) "m1" 0 initRouter).1.actors
        = some (freshActorState "room" "r1")
    ∧ memStatusEntry (freshActorState "room" "r1")
        ∈ handleStatus "room:"
            (handleRoute "room" "r1" (some bigPayload) "m1" 0 initRouter).1
    ∧ (memStatusEntry (freshActorState "room" "r1")).queueLength = 0 := by
  have hbig : defaultPolicy.maxPayloadBytes < payloadSize (some bigPayload) := by
    rw [payloadSize_bigPayload]
    show 64 * 1024 < 65537
    omega
  have h := goldfish_C10_fresh_entry_on_rejection initRouter "room" "r1"
    (some bigPayload) "m1" 0 rfl hbig (by intro kv hm; cases hm)
    (by simp [initRouter]) (by intro kv hm; cases hm) (by decide)
  exact ⟨h.1, h.2.1, h.2.2.2.2.1, h.2.2.2.2.2.1⟩

/-- **C6.**  When an invoked handler's envelope carries `nextPolicy.mode =
"reject"`, the Router removes every remaining queued message for that key,
rejecting each one's `PendingRequest` with the `"Message rejected by actor"`
error, then stops processing that key for the cycle (exactly one `invoke` —
the head's — happens); the key's `busy` flag is cleared on exit and its
queue is empty, so the key still accepts new messages afterward, and a
subsequent drain cycle processes them. -/
theorem goldfish_C6_reject_drains_queue (invoke : Message → InvokeResp)
    (s : RouterState) (actorType actorId : String) (a : ActorQueueState)
    (m : Message) (rest : List Message) (env : Envelope) (now : Nat)
    (hget : getEntry (actorType ++ ":" ++ actorId) s.actors = some a)
    (hbusy : a.busy = false)
    (hq : a.queue = m :: rest)
    (hinv : invoke m = InvokeResp.success env)
    (hmode : env.nextPolicy.mode = "reject")
    (hnd : ((m :: rest).map Message.messageId).Nodup) :
    getEntry (actorType ++ ":" ++ actorId)
        (processActorQueue invoke now (actorType ++ ":" ++ actorId) s).1.actors
      = some { a with busy := false, queue := [] }
    ∧ (∀ m2 ∈ rest, m2.messageId ∈ s.pendingResults →
        DrainEvent.rejectedPending m2.messageId "Message rejected by actor"
          ∈ (processActorQueue invoke now (actorType ++ ":" ++ actorId) s).2)
    ∧ ((processActorQueue invoke now (actorType ++ ":" ++ actorId) s).2).filter
        isInvokedEvent = [DrainEvent.invoked a.actorKey m.messageId]
    ∧ (∀ (invoke2 : Message → InvokeResp) (p2 : Option String) (mid2 : String)
        (now2 now3 : Nat),
        payloadSize p2 ≤ a.policy.maxPayloadBytes → 0 < a.policy.queueLimit →
        (handleRoute actorType actorId p2 mid2 now2
            (processActorQueue invoke now (actorType ++ ":" ++ actorId) s).1).2
          = RouteOutcome.accepted mid2
        ∧ DrainEvent.invoked a.actorKey mid2
          ∈ (processActorQueue invoke2 now3 (actorType ++ ":" ++ actorId)
              (handleRoute actorType actorId p2 mid2 now2
                (processActorQueue invoke now (actorType ++ ":" ++ actorId) s).1).1).2) := by
  have hnw : ¬ env.nextPolicy.mode = "wait" := by
    rw [hmode]
    decide
  have hr : processQueueLoop invoke { a with busy := true } a.queue
      (setEntry (actorType ++ ":" ++ actorId) { a with busy := true } s.actors)
      s.pendingResults [] =
      ([],
        registerSpawn { a with busy := true } env.spawn
          (setEntry (actorType ++ ":" ++ actorId) { a with busy := true } s.actors),
        rejectRemaining rest
          (settlePending m.messageId (DrainEvent.resolved m.messageId env.result)
            s.pendingResults [DrainEvent.invoked a.actorKey m.messageId]).1
          (settlePending m.messageId (DrainEvent.resolved m.messageId env.result)
            s.pendingResults [DrainEvent.invoked a.actorKey m.messageId]).2) := by
    rw [hq, processQueueLoop_cons_success invoke _ m rest _ _ _ env hinv]
    simp only [if_neg hnw, if_pos hmode]
    rfl
  have heq := processActorQueue_not_busy invoke now (actorType ++ ":" ++ actorId) s a hget hbusy
  simp only [hr] at heq
  have hkeyP : getEntry (actorType ++ ":" ++ actorId)
      (processActorQueue invoke now (actorType ++ ":" ++ actorId) s).1.actors
      = some { a with busy := false, queue := ([] : List Message) } := by
    simp only [heq]
    exact getEntry_setEntry_self _ _ _
  refine ⟨hkeyP, ?_, ?_, ?_⟩
  · intro m2 hm2 hpend
    simp only [heq]
    apply rejectRemaining_rejects rest _ _ m2 hm2 _ (List.nodup_cons.1 hnd).2
    unfold settlePending
    have hne : m2.messageId ≠ m.messageId := by
      intro hc
      exact (List.nodup_cons.1 hnd).1 (hc ▸ List.mem_map_of_mem Message.messageId hm2)
    by_cases hmem : m.messageId ∈ s.pendingResults
    · simp only [if_pos hmem]
      exact (List.mem_erase_of_ne hne).2 hpend
    · simp only [if_neg hmem]
      exact hpend
  · simp only [heq]
    rw [rejectRemaining_no_invoked,
      settlePending_no_invoked m.messageId
        (DrainEvent.resolved m.messageId env.result) s.pendingResults
        [DrainEvent.invoked a.actorKey m.messageId] rfl]
    rfl
  · intro invoke2 p2 mid2 now2 now3 hp2 hlim
    have hfound := handleRoute_found actorType actorId p2 mid2 now2
      (processActorQueue invoke now (actorType ++ ":" ++ actorId) s).1
      { a with busy := false, queue := ([] : List Message) } hkeyP
    have hsize2 : ¬ ({ a with busy := false, queue := ([] : List Message)}
        : ActorQueueState).policy.maxPayloadBytes < payloadSize p2 :=
      Nat.not_lt.2 hp2
    have hlen2 : ¬ ({ a with busy := false, queue := ([] : List Message)}
        : ActorQueueState).policy.queueLimit
        ≤ ({ a with busy := false, queue := ([] : List Message)}
            : ActorQueueState).queue.length := by
      show ¬ a.policy.queueLimit ≤ ([] : List Message).length
      simp only [List.length_nil]
      omega
    rw [if_neg hsize2, if_neg hlen2] at hfound
    refine ⟨by rw [hfound], ?_⟩
    have hkey2 : getEntry (actorType ++ ":" ++ actorId)
        (handleRoute actorType actorId p2 mid2 now2
          (processActorQueue invoke now (actorType ++ ":" ++ actorId) s).1).1.actors
        = some { a with
                 busy := false
                 queue := [{ messageId := mid2, payload := p2, enqueuedAt := now2 }] } := by
      rw [hfound]
      exact getEntry_setEntry_self _ _ _
    rw [processActorQueue_not_busy invoke2 now3 (actorType ++ ":" ++ actorId) _ _ hkey2 rfl]
    exact processQueueLoop_head_invoked invoke2 _
      { messageId := mid2, payload := p2, enqueuedAt := now2 } [] _ _ _

def c5Msg : Message := { messageId := "m1", payload := some "x", enqueuedAt := 0 }

def c5Actor : ActorQueueState :=
  { freshActorState "teacher" "t1" with queue := [c5Msg] }

def c5State : RouterState :=
  { actors := [("teacher:t1", c5Actor)], pendingResults := [], storage := [] }

def c5Env : Envelope :=
  { result := some "ok", nextPolicy := { mode := "immediate" }, spawn := ["q1"] }

def c5Invoke : Message → InvokeResp := fun _ => InvokeResp.success c5Env

/-- C5: counterexample.  A handler for `teacher:t1` returns `spawn: ["q1"]`;
after the drain cycle the child is registered under the *parent's* type
(`childKey` is built from `actorState.actorType`), so `status("question:")`
is empty and no `question:q1` entry exists anywhere — the spawned entry
lives at `teacher:q1`. -/
theorem goldfish_C5_counterexample :
    handleStatus "question:" (drainLoop c5Invoke 7 c5State).1 = []
    ∧ getEntry "question:q1" (drainLoop c5Invoke 7 c5State).1.actors = none
    ∧ getEntry "teacher:q1" (drainLoop c5Invoke 7 c5State).1.actors
        = some { actorKey := "teacher:q1", actorType := "teacher", actorId := "q1",
                 busy := false, queue := [], policy := defaultPolicy } :=
  ⟨rfl, rfl, rfl⟩

/-- C5 (amended): when the handler for `teacher:t1` returns `spawn: ["q1"]`,
the drain cycle pre-registers an idle `ActorQueueState` under the parent's
own type — key `teacher:q1`, empty queue, `busy = false`, policy copied from
the parent — which `status("teacher:")` then lists from memory; nothing is
registered under `question:q1`, `status("question:")` stays empty, and the
only invocation of the cycle is the parent's own message (no message is ever
sent to the spawned child). -/
theorem goldfish_C5_amended (invoke : Message → InvokeResp) (s : RouterState)
    (a : ActorQueueState) (m : Message) (env : Envelope) (now : Nat)
    (hactors : s.actors = [("teacher:t1", a)])
    (hak : a.actorKey = "teacher:t1")
    (hat : a.actorType = "teacher")
    (hai : a.actorId = "t1")
    (hbusy : a.busy = false)
    (hq : a.queue = [m])
    (hpend : s.pendingResults = [])
    (hstore : s.storage = [])
    (hinv : invoke m = InvokeResp.success env)
    (hspawn : env.spawn = ["q1"])
    (hmode : env.nextPolicy.mode = "immediate") :
    getEntry "teacher:q1" (drainLoop invoke now s).1.actors
      = some { actorKey := "teacher:q1", actorType := "teacher", actorId := "q1",
               busy := false, queue := [], policy := a.policy }
    ∧ memStatusEntry { actorKey := "teacher:q1", actorType := "teacher"
                       actorId := "q1", busy := false, queue := []
                       policy := a.policy }
        ∈ handleStatus "teacher:" (drainLoop invoke now s).1
    ∧ getEntry "question:q1" (drainLoop invoke now s).1.actors = none
    ∧ handleStatus "question:" (drainLoop invoke now s).1 = []
    ∧ (drainLoop invoke now s).2 = [DrainEvent.invoked "teacher:t1" m.messageId] := by
  obtain ⟨ak, aty, aid, ab, aq, ap⟩ := a
  obtain ⟨res, ⟨mode⟩, spw⟩ := env
  obtain ⟨actors, pending, storage⟩ := s
  dsimp only at hactors hak hat hai hbusy hq hpend hstore hspawn hmode
  subst hak hat hai hbusy hq hpend hstore hspawn hmode hactors
  have hloop : processQueueLoop invoke
      { actorKey := "teacher:t1", actorType := "teacher", actorId := "t1",
        busy := true, queue := [m], policy := ap } [m]
      (setEntry "teacher:t1"
        { actorKey := "teacher:t1", actorType := "teacher", actorId := "t1",
          busy := true, queue := [m], policy := ap }
        [("teacher:t1",
          { actorKey := "teacher:t1", actorType := "teacher", actorId := "t1",
            busy := false, queue := [m], policy := ap })]) [] []
      = ([],
         [("teacher:t1",
           { actorKey := "teacher:t1", actorType := "teacher", actorId := "t1",
             busy := true, queue := [m], policy := ap }),
          ("teacher:q1",
           { actorKey := "teacher:q1", actorType := "teacher", actorId := "q1",
             busy := false, queue := [], policy := ap })], [],
         [DrainEvent.invoked "teacher:t1" m.messageId]) := by
    rw [processQueueLoop_cons_success invoke _ m [] _ [] [] _ hinv]
    rfl
  have hpaq : processActorQueue invoke now "teacher:t1"
      { actors := [("teacher:t1",
          { actorKey := "teacher:t1", actorType := "teacher", actorId := "t1",
            busy := false, queue := [m], policy := ap })]
        pendingResults := []
        storage := [] }
      = ({ actors :=
            [("teacher:t1",
              { actorKey := "teacher:t1", actorType := "teacher", actorId := "t1",
                busy := false, queue := [], policy := ap }),
             ("teacher:q1",
              { actorKey := "teacher:q1", actorType := "teacher", actorId := "q1",
                busy := false, queue := [], policy := ap })]
           pendingResults := []
           storage := [("meta:teacher:t1",
             { busy := true, queueLength := 0, actorType := "teacher",
               actorId := "t1", updatedAt := now })] },
         [DrainEvent.invoked "teacher:t1" m.messageId]) := by
    rw [processActorQueue_not_busy invoke now "teacher:t1"
      { actors := [("teacher:t1",
          { actorKey := "teacher:t1", actorType := "teacher", actorId := "t1",
            busy := false, queue := [m], policy := ap })]
        pendingResults := []
        storage := [] }
      { actorKey := "teacher:t1", actorType := "teacher", actorId := "t1",
        busy := false, queue := [m], policy := ap } rfl rfl]
    simp only [hloop]
    rfl
  have hdrain : drainLoop invoke now
      { actors := [("teacher:t1",
          { actorKey := "teacher:t1", actorType := "teacher", actorId := "t1",
            busy := false, queue := [m], policy := ap })]
        pendingResults := []
        storage := [] }
      = ({ actors :=
            [("teacher:t1",
              { actorKey := "teacher:t1", actorType := "teacher", actorId := "t1",
                busy := false, queue := [], policy := ap }),
             ("teacher:q1",
              { actorKey := "teacher:q1", actorType := "teacher", actorId := "q1",
                busy := false, queue := [], policy := ap })]
           pendingResults := []
           storage := [("meta:teacher:t1",
             { busy := true, queueLength := 0, actorType := "teacher",
               actorId := "t1", updatedAt := now })] },
         [DrainEvent.invoked "teacher:t1" m.messageId]) := by
    have hsplit : drainLoop invoke now
        { actors := [("teacher:t1",
            { actorKey := "teacher:t1", actorType := "teacher", actorId := "t1",
              busy := false, queue := [m], policy := ap })]
          pendingResults := []
          storage := [] }
        = ((processActorQueue invoke now "teacher:t1"
              { actors := [("teacher:t1",
                  { actorKey := "teacher:t1", actorType := "teacher", actorId := "t1",
                    busy := false, queue := [m], policy := ap })]
                pendingResults := []
                storage := [] }).1,
           [] ++ (processActorQueue invoke now "teacher:t1"
              { actors := [("teacher:t1",
                  { actorKey := "teacher:t1", actorType := "teacher", actorId := "t1",
                    busy := false, queue := [m], policy := ap })]
                pendingResults := []
                storage := [] }).2) := rfl
    rw [hsplit, hpaq]
    rfl
  refine ⟨?_, ?_, ?_, ?_, ?_⟩
  · rw [hdrain]
    rfl
  · rw [hdrain]
    refine handleStatus_mem_of_memOnly "teacher:" _ "teacher:q1"
      { actorKey := "teacher:q1", actorType := "teacher", actorId := "q1",
        busy := false, queue := [], policy := ap } rfl rfl ?_ ?_ ?_ ?_
    · intro kv hkv
      rcases List.mem_cons.1 hkv with h | h
      · subst h; rfl
      rcases List.mem_cons.1 h with h2 | h2
      · subst h2; rfl
      · exact absurd h2 (List.not_mem_nil _)
    · show (["teacher:t1", "teacher:q1"] : List String).Nodup
      decide
    · intro kv hkv
      rcases List.mem_cons.1 hkv with h | h
      · subst h
        show "meta:teacher:t1".drop 5 ≠ "teacher:q1"
        decide
      · exact absurd h (List.not_mem_nil _)
    · show (decide ("teacher:" ≠ "") && !(strStartsWith "teacher:q1" "teacher:")) = false
      decide
  · rw [hdrain]
    rfl
  · rw [hdrain]
    rfl
  · rw [hdrain]

/-- Witness for the amended C5 at a fully concrete spawn scenario. -/
theorem goldfish_C5_witness :
    getEntry "teacher:q1" (drainLoop c5Invoke 7 c5State).1.actors
      = some { actorKey := "teacher:q1", actorType := "teacher", actorId := "q1",
               busy := false, queue := [], policy := defaultPolicy }
    ∧ memStatusEntry { actorKey := "teacher:q1", actorType := "teacher"
                       actorId := "q1", busy := false, queue := []
                       policy := defaultPolicy }
        ∈ handleStatus "teacher:" (drainLoop c5Invoke 7 c5State).1
    ∧ getEntry "question:q1" (drainLoop c5Invoke 7 c5State).1.actors = none
    ∧ handleStatus "question:" (drainLoop c5Invoke 7 c5State).1 = []
    ∧ (drainLoop c5Invoke 7 c5State).2 = [DrainEvent.invoked "teacher:t1" "m1"] := by
  have h := goldfish_C5_amended c5Invoke c5State c5Actor c5Msg c5Env 7
    rfl rfl rfl rfl rfl rfl rfl rfl rfl rfl rfl
  exact ⟨h.1, h.2.1, h.2.2.1, h.2.2.2.1, h.2.2.2.2⟩

def c6M1 : Message := { messageId := "a1", payload := some "x", enqueuedAt := 0 }

def c6M2 : Message := { messageId := "a2", payload := some "x", enqueuedAt := 0 }

def c6M3 : Message := { messageId := "a3", payload := some "x", enqueuedAt := 0 }

def c6Actor : ActorQueueState :=
  { freshActorState "room" "r1" with queue := [c6M1, c6M2, c6M3] }

def c6State : RouterState :=
  { actors := [("room:r1", c6Actor)]
    pendingResults := ["a1", "a2", "a3"]
    storage := [] }

def c6Env : Envelope :=
  { result := some "done", nextPolicy := { mode := "reject" }, spawn := [] }

def c6Invoke : Message → InvokeResp := fun _ => InvokeResp.success c6Env

/-- Witness for C6 at a concrete three-message queue. -/
theorem goldfish_C6_witness :
    getEntry "room:r1" (processActorQueue c6Invoke 3 "room:r1" c6State).1.actors
      = some { c6Actor with busy := false, queue := [] }
    ∧ DrainEvent.rejectedPending "a2" "Message rejected by actor"
        ∈ (processActorQueue c6Invoke 3 "room:r1" c6State).2
    ∧ ((processActorQueue c6Invoke 3 "room:r1" c6State).2).filter isInvokedEvent
        = [DrainEvent.invoked "room:r1" "a1"]
    ∧ (handleRoute "room" "r1" (some "y") "a4" 4
        (processActorQueue c6Invoke 3 "room:r1" c6State).1).2
        = RouteOutcome.accepted "a4" := by
  have h := goldfish_C6_reject_drains_queue c6Invoke c6State "room" "r1" c6Actor
    c6M1 [c6M2, c6M3] c6Env 3 (by decide) (by decide) (by decide) rfl rfl (by decide)
  exact ⟨h.1, h.2.1 c6M2 (by decide) (by decide), h.2.2.1,
    (h.2.2.2 c6Invoke (some "y") "a4" 4 0 (by decide) (by decide)).1⟩

end Goldfish
